import Mathlib

/-!
# xrtmap: point ledger, projection, input decoding and event loop

A shallow embedding of `xrtmap.c`.  The C globals become the fields of one
record `Globals`, every C function becomes a function on that record, and
everything the program receives from outside (the result of `calloc`, of
`time`, of `read`, of `select`, the pending X events) is an explicit argument.

Conventions:
* `double` values are exact rationals (no rounding, no infinities, no NaN);
* `int` values are mathematical integers, with the places where C leaves the
  result undefined reported as `Fault.undefined`;
* pointers to `struct point` are `Option Nat` (`none` is `NULL`), and the
  allocated points live in `Globals.heap`;
* the requests sent to the X server are appended to `Globals.xout`, and their
  effect on the pixels of the window is given separately by `XRequest.apply`;
* the library calls (`read`, `sscanf`, `select`, `time`, `calloc`, Xlib) follow
  their documented behaviour; `time_t` arithmetic is taken not to overflow.
-/

namespace Xrtmap

/-- Ways in which a run of the program stops without producing a next state. -/
inductive Fault where
  /-- Call of `err(1, ...)` / `errx(1, ...)`: the process exits with status 1. -/
  | exit1 (msg : String)
  /-- Behaviour that C leaves undefined (bad pointer, write out of bounds, overflow). -/
  | undefined (what : String)
  /-- The loop bound given to the model was too small. -/
  | fuel
  /-- Input on which C libraries differ or that has no rational value. -/
  | unmodelled (what : String)
  deriving DecidableEq, Repr

/-- Source: `#define EXPIRE_SECS 30`. -/
def EXPIRE_SECS : Int := 30

/-- Source: `struct point`. -/
structure point where
  lat : ℚ
  lon : ℚ
  t : Int
  next : Option Nat
  deriving DecidableEq

/-- Events delivered by `XNextEvent`, by `event.type`. -/
inductive XEvent where
  | Expose (count : Int)
  | ConfigureNotify (width height : Int)
  | other (type : Int)
  deriving DecidableEq, Repr

/-- Requests the program sends to the X server. -/
inductive XRequest where
  | FillRectangle (x y : Int) (width height : Nat)
  | PutImage (src_x src_y dest_x dest_y : Int) (width height : Nat)
  | Flush
  deriving DecidableEq, Repr

/-- Pixel values (`unsigned long` in Xlib). -/
abbrev Pixel := Nat

/-- Source: `XImage` as filled by `load_image`: its size and its pixels. -/
structure XImage where
  width : Int
  height : Int
  pixel : Int → Int → Pixel

/-- The file-scope variables of `xrtmap.c` that the modelled functions use,
together with the heap of allocated points and the two output channels. -/
structure Globals where
  width : Int
  height : Int
  win_width : Int
  win_height : Int
  image : XImage
  /-- Foreground pixel of `gc` (the colour allocated for "red" in `main`). -/
  foreground : Pixel
  ctlfd : Int
  scale_x : ℚ
  scale_y : ℚ
  first : Option Nat
  last : Option Nat
  /-- The `struct point` objects currently allocated, by address. -/
  heap : Nat → Option point
  /-- Requests sent to the X server so far, oldest first. -/
  xout : List XRequest
  /-- Lines written by `warnx`, oldest first. -/
  diag : List String

/-- Writes `pt` at address `a`. -/
def store (h : Nat → Option point) (a : Nat) (pt : Option point) : Nat → Option point :=
  fun b => if b = a then pt else h b

/-- Source: `enqueue_point`.  `mem` is what `calloc` returned and `now` what
`time(NULL)` returned. -/
def enqueue_point (mem : Option Nat) (now : Int) (lat lon : ℚ) (g : Globals) :
    Except Fault Globals :=
  match mem with
  | none => .error (.exit1 "calloc point")
  | some pt =>
    let h := store g.heap pt (some ⟨lat, lon, now, none⟩)
    match g.last with
    | none => .ok { g with heap := h, first := some pt, last := some pt }
    | some l =>
      match h l with
      | none => .error (.undefined "last->next")
      | some lp => .ok { g with heap := store h l (some { lp with next := some pt }), last := some pt }

/-- Source: `dequeue_point`. -/
def dequeue_point (g : Globals) : Except Fault Globals :=
  match g.first with
  | none => .ok g
  | some pt =>
    match g.heap pt with
    | none => .error (.undefined "pt->next")
    | some p =>
      let g1 := { g with first := p.next }
      let g2 := if g1.first = none then { g1 with last := none } else g1
      .ok { g2 with heap := store g2.heap pt none }

/-! ## Projection and rendering -/

/-- Least value of C `int` (32 bit). -/
def INT_MIN : Int := -2147483648

/-- Greatest value of C `int` (32 bit). -/
def INT_MAX : Int := 2147483647

/-- An `int` result whose mathematical value is `z`; signed overflow is undefined in C. -/
def int_result (z : Int) : Except Fault Int :=
  if INT_MIN ≤ z ∧ z ≤ INT_MAX then .ok z else .error (.undefined "int out of range")

/-- The integral part of a rational: the fractional part is discarded
(truncation toward zero). -/
def trunc (d : ℚ) : Int := if 0 ≤ d then ⌊d⌋ else ⌈d⌉

/-- The C conversion `(int) d` of a finite double: the fractional part is
discarded; undefined when the integral part does not fit `int`. -/
def double_to_int (d : ℚ) : Except Fault Int :=
  int_result (trunc d)

/-- Conversion of an `int` argument to an `unsigned int` parameter. -/
def to_unsigned (i : Int) : Nat := (i % 4294967296).toNat

/-- Source: `x = (int) ((lon + 180.0) * scale_x);`, the same statement in
`draw_point` and in `undraw_point`. -/
def pixel_x (g : Globals) (lon : ℚ) : Except Fault Int :=
  double_to_int ((lon + 180) * g.scale_x)

/-- Source: `y = (int) ((90.0 - lat) * scale_y);`, the same statement in
`draw_point` and in `undraw_point`. -/
def pixel_y (g : Globals) (lat : ℚ) : Except Fault Int :=
  double_to_int ((90 - lat) * g.scale_y)

/-- Source: `draw_point`. -/
def draw_point (lat lon : ℚ) (g : Globals) : Except Fault Globals := do
  let sz : Int := 5
  let x ← pixel_x g lon
  let y ← pixel_y g lat
  let rx ← int_result (x - Int.tdiv sz 2)
  let ry ← int_result (y - Int.tdiv sz 2)
  pure { g with xout := g.xout ++ [.FillRectangle rx ry (to_unsigned sz) (to_unsigned sz)] }

/-- Source: `undraw_point`. -/
def undraw_point (lat lon : ℚ) (g : Globals) : Except Fault Globals := do
  let sz : Int := 5
  let x ← pixel_x g lon
  let y ← pixel_y g lat
  let rx ← int_result (x - Int.tdiv sz 2)
  let ry ← int_result (y - Int.tdiv sz 2)
  pure { g with xout := g.xout ++ [.PutImage rx ry rx ry (to_unsigned sz) (to_unsigned sz)] }

/-- Source: the `for (np = first; np != NULL; np = np->next)` loop of `draw`;
`fuel` bounds the number of executions of the body. -/
def draw_loop : Nat → Option Nat → Globals → Except Fault Globals
  | _, none, g => .ok g
  | 0, some _, _ => .error .fuel
  | fuel + 1, some np, g =>
    match g.heap np with
    | none => .error (.undefined "np->lat")
    | some p => draw_point p.lat p.lon g >>= draw_loop fuel p.next

/-- Source: `draw`. -/
def draw (fuel : Nat) (g : Globals) : Except Fault Globals :=
  draw_loop fuel g.first
    { g with xout := g.xout ++ [.PutImage 0 0 0 0 (to_unsigned g.width) (to_unsigned g.height)] }

/-- Source: `plot`. -/
def plot (mem : Option Nat) (now : Int) (lat lon : ℚ) (g : Globals) : Except Fault Globals := do
  let g1 ← enqueue_point mem now lat lon g
  let g2 ← draw_point lat lon g1
  pure { g2 with xout := g2.xout ++ [.Flush] }

/-- Source: `main`, the two assignments `scale_x = width/360.0; scale_y = height/180.0;`. -/
def main_scale (g : Globals) : Globals :=
  { g with scale_x := (g.width : ℚ) / 360, scale_y := (g.height : ℚ) / 180 }

/-! ## Input decoding -/

/-- C `isspace` in the "C" locale: space, `\t`, `\n`, `\v`, `\f`, `\r`. -/
def isspace (c : Char) : Bool :=
  c.toNat = 32 || (9 ≤ c.toNat && c.toNat ≤ 13)

/-- C `isdigit`. -/
def isdigit (c : Char) : Bool :=
  48 ≤ c.toNat && c.toNat ≤ 57

/-- Drops leading white space, as `sscanf` does before `%lf` and for a blank
in the format. -/
def skip_space : List Char → List Char
  | [] => []
  | c :: cs => if isspace c then skip_space cs else c :: cs

/-- Reads the longest run of decimal digits: the value accumulated onto `acc`,
the number of digits read added to `n`, and the unread rest. -/
def scan_digits : Nat → Nat → List Char → Nat × Nat × List Char
  | acc, n, [] => (acc, n, [])
  | acc, n, c :: cs =>
    if isdigit c then scan_digits (10 * acc + (c.toNat - 48)) (n + 1) cs else (acc, n, c :: cs)

/-- Reads an optional sign: whether it was `-`, and the unread rest. -/
def scan_sign : List Char → Bool × List Char
  | [] => (false, [])
  | c :: cs => if c = '-' then (true, cs) else if c = '+' then (false, cs) else (false, c :: cs)

/-- A decimal floating constant as read: sign, digits of the mantissa read as
one natural number, and the power of ten that scales it. -/
structure Decimal where
  neg : Bool
  mant : Nat
  exp10 : Int
  deriving DecidableEq, Repr

/-- The value of a decimal constant, as an exact rational. -/
def Decimal.toDouble (d : Decimal) : ℚ :=
  (if d.neg then -(d.mant : ℚ) else (d.mant : ℚ)) * (10 : ℚ) ^ d.exp10

/-- Outcome of one `%lf` conversion on input that starts with a non-blank. -/
inductive Conv where
  | ok (v : Decimal) (rest : List Char)
  | mismatch
  | unmodelled
  deriving DecidableEq, Repr

/-- Whether the input starts with the given letters, each given in its two cases. -/
def starts_with_ci : List Char → List (Char × Char) → Bool
  | _, [] => true
  | [], _ :: _ => false
  | c :: cs, p :: ps => (c = p.1 || c = p.2) && starts_with_ci cs ps

/-- The digits of a decimal constant with its optional `.`: the digits read as
one number, how many digits were read, how many of them after the `.`, and the
unread rest. -/
def scan_mantissa (s : List Char) : Nat × Nat × Nat × List Char :=
  match scan_digits 0 0 s with
  | (m1, n1, []) => (m1, n1, 0, [])
  | (m1, n1, c :: r) =>
    if c = '.' then
      match scan_digits m1 0 r with
      | (m2, n2, s3) => (m2, n1 + n2, n2, s3)
    else (m1, n1, 0, c :: r)

/-- The optional exponent part after a mantissa `m` with `frac` digits after
the `.`, and the constant that results. -/
def scan_exponent (neg : Bool) (m frac : Nat) : List Char → Conv
  | [] => .ok ⟨neg, m, -(frac : Int)⟩ []
  | c :: r =>
    if c = 'e' ∨ c = 'E' then
      match scan_sign r with
      | (eneg, r1) =>
        match scan_digits 0 0 r1 with
        | (ev, en, r2) =>
          if en = 0 then .unmodelled
          else .ok ⟨neg, m, (if eneg then -(ev : Int) else (ev : Int)) - (frac : Int)⟩ r2
    else .ok ⟨neg, m, -(frac : Int)⟩ (c :: r)

/-- One `%lf` conversion (the subject sequence of `strtod`) in the "C" locale,
for decimal constants: optional sign, digits with an optional `.`, at least one
digit, optional exponent `e`/`E` with optional sign and at least one digit.
Inputs on which C libraries differ, or whose value is not a rational, are
`unmodelled`: `inf`, `nan`, hexadecimal constants, and an `e` that no digit
follows. -/
def scan_lf (s : List Char) : Conv :=
  match scan_sign s with
  | (neg, s1) =>
    if starts_with_ci s1 [('i', 'I'), ('n', 'N'), ('f', 'F')]
        || starts_with_ci s1 [('n', 'N'), ('a', 'A'), ('n', 'N')]
        || starts_with_ci s1 [('0', '0'), ('x', 'X')] then .unmodelled
    else
      match scan_mantissa s1 with
      | (m, n, frac, s3) => if n = 0 then .mismatch else scan_exponent neg m frac s3

/-- What `sscanf(buf, "%lf %lf", &lat, &lon)` did: its return value is `-1`
(`EOF`), `0`, `1` or `2`, and the values it assigned. -/
inductive Scanned where
  | eof
  | zero
  | one (lat : ℚ)
  | two (lat lon : ℚ)
  deriving DecidableEq

/-- The value returned by `sscanf`. -/
def Scanned.ret : Scanned → Int
  | .eof => -1
  | .zero => 0
  | .one _ => 1
  | .two _ _ => 2

/-- The call `sscanf(buf, "%lf %lf", &lat, &lon)` on the C string `s`. -/
def sscanf_lf_lf (s : List Char) : Except Fault Scanned :=
  match skip_space s with
  | [] => .ok .eof
  | c :: cs =>
    match scan_lf (c :: cs) with
    | .unmodelled => .error (.unmodelled "strtod")
    | .mismatch => .ok .zero
    | .ok v1 r1 =>
      match skip_space (skip_space r1) with
      | [] => .ok (.one v1.toDouble)
      | d :: ds =>
        match scan_lf (d :: ds) with
        | .unmodelled => .error (.unmodelled "strtod")
        | .mismatch => .ok (.one v1.toDouble)
        | .ok v2 _ => .ok (.two v1.toDouble v2.toDouble)

/-- The characters of a C string stored in `buf`: those before the first NUL. -/
def c_string (buf : List Char) : List Char :=
  buf.takeWhile (fun c => c.toNat ≠ 0)

/-- The call `read(fd, buf, count)`: `src` is what the descriptor hands over
(`none`: the call fails), of which at most `count` bytes are taken; the result
is the return value and the bytes stored at the start of `buf`. -/
def read (src : Option (List Char)) (count : Nat) : Int × List Char :=
  match src with
  | none => (-1, [])
  | some l => (((l.take count).length : Int), l.take count)

/-- Source: `process_input`.  `src` is what `read` finds on `fd`; `mem` and
`now` are the results of `calloc` and `time` in `enqueue_point`. -/
def process_input (src : Option (List Char)) (mem : Option Nat) (now : Int) (g : Globals) :
    Except Fault Globals :=
  let (n, data) := read src 256
  if n ≤ 0 then .error (.exit1 "read")
  else if ¬ n < 256 then .error (.undefined "buf[n] = 0 outside char buf[256]")
  else
    let buf := data ++ [Char.ofNat 0]
    match sscanf_lf_lf (c_string buf) with
    | .error e => .error e
    | .ok (.two lat lon) => plot mem now lat lon g
    | .ok _ => .ok { g with diag := g.diag ++ ["format error: use <lat> <lon>"] }

/-! ## Event loop -/

/-- Source: the `while (XPending(dpy))` loop of `process_xevents`, over the
events that are pending. -/
def process_xevents_loop (fuel : Nat) : List XEvent → Globals → Except Fault Globals
  | [], g => .ok g
  | ev :: rest, g =>
    match ev with
    | .Expose count =>
      if count = 0 then draw fuel g >>= process_xevents_loop fuel rest
      else process_xevents_loop fuel rest g
    | .ConfigureNotify w h =>
      process_xevents_loop fuel rest { g with win_width := w, win_height := h }
    | .other _ => process_xevents_loop fuel rest g

/-- Source: `process_xevents`. -/
def process_xevents (fuel : Nat) (pending : List XEvent) (g : Globals) : Except Fault Globals := do
  let g1 ← process_xevents_loop fuel pending g
  pure { g1 with xout := g1.xout ++ [.Flush] }

/-- Source: `struct timeval`. -/
structure timeval where
  tv_sec : Int
  tv_usec : Int
  deriving DecidableEq, Repr

/-- The arguments of the call `select(maxfd + 1, &rfds, NULL, NULL, tvp)`. -/
structure SelectCall where
  nfds : Int
  rfds : List Int
  tvp : Option timeval
  deriving DecidableEq, Repr

/-- What `select` returned: its return value and the descriptors left in `rfds`. -/
structure Wakeup where
  nready : Int
  rfds : List Int
  deriving DecidableEq, Repr

/-- What one pass of the dispatch loop receives from outside. -/
structure Inputs where
  pending : List XEvent
  src : Option (List Char)
  mem : Option Nat
  now : Int

/-- Source: `process_events` from its start up to the call of `select`: the
state after the pending X events were handled, and the arguments of `select`. -/
def process_events_wait (fuel : Nat) (xfd : Int) (pending : List XEvent) (g : Globals) :
    Except Fault (Globals × SelectCall) := do
  let g1 ← process_xevents fuel pending g
  let maxfd := if g1.ctlfd > xfd then g1.ctlfd else xfd
  let tv : timeval := ⟨1, 0⟩
  let tvp := if g1.first ≠ none then some tv else none
  pure (g1, ⟨maxfd + 1, [xfd, g1.ctlfd], tvp⟩)

/-- Source: the `for (i = 0; i < nready; i++)` loop of `process_events`:
`k` passes are left and the next one is pass `i`. -/
def dispatch_loop (fuel : Nat) (xfd : Int) (w : Wakeup) (inp : Nat → Inputs) :
    Nat → Nat → Globals → Except Fault Globals
  | 0, _, g => .ok g
  | k + 1, i, g =>
    (if xfd ∈ w.rfds then process_xevents fuel (inp i).pending g
     else if g.ctlfd ∈ w.rfds then process_input (inp i).src (inp i).mem (inp i).now g
     else .ok g) >>= dispatch_loop fuel xfd w inp k (i + 1)

/-- Source: the condition `first != NULL && t - first->t >= EXPIRE_SECS`. -/
def expired_first (t : Int) (g : Globals) : Except Fault Bool :=
  match g.first with
  | none => .ok false
  | some a =>
    match g.heap a with
    | none => .error (.undefined "first->t")
    | some p => .ok (decide (t - p.t ≥ EXPIRE_SECS))

/-- Source: the body `undraw_point(first->lat, first->lon); dequeue_point();`. -/
def expire_step (g : Globals) : Except Fault Globals :=
  match g.first with
  | none => .error (.undefined "first->lat")
  | some a =>
    match g.heap a with
    | none => .error (.undefined "first->lat")
    | some p => undraw_point p.lat p.lon g >>= dequeue_point

/-- Source: the expiry `while` loop at the end of `process_events`; `fuel`
bounds the number of executions of the body. -/
def expire_loop (t : Int) : Nat → Globals → Except Fault Globals
  | 0, g => expired_first t g >>= fun b => if b then .error .fuel else .ok g
  | fuel + 1, g =>
    expired_first t g >>= fun b => if b then expire_step g >>= expire_loop t fuel else .ok g

/-- Source: `process_events` from the return of `select` to its end; `t` is
what `time(NULL)` returned. -/
def process_events_dispatch (fuel : Nat) (xfd : Int) (w : Wakeup) (inp : Nat → Inputs) (t : Int)
    (g : Globals) : Except Fault Globals :=
  if w.nready = -1 then .error (.exit1 "select")
  else dispatch_loop fuel xfd w inp w.nready.toNat 0 g >>= expire_loop t fuel

/-- Source: `process_events`.  `sel` is the behaviour of `select`. -/
def process_events (fuel : Nat) (xfd : Int) (pending : List XEvent) (sel : SelectCall → Wakeup)
    (inp : Nat → Inputs) (t : Int) (g : Globals) : Except Fault Globals := do
  let (g1, call) ← process_events_wait fuel xfd pending g
  process_events_dispatch fuel xfd (sel call) inp t g1

/-! ## The ledger as a list -/

/-- What the ledger records of one point. -/
structure Entry where
  lat : ℚ
  lon : ℚ
  t : Int
  deriving DecidableEq

/-- Source: the traversal `for (np = first; np != NULL; np = np->next)`,
collecting the points met; `fuel` bounds the number of steps. -/
def walk (h : Nat → Option point) : Nat → Option Nat → Except Fault (List Entry)
  | _, none => .ok []
  | 0, some _ => .error .fuel
  | fuel + 1, some np =>
    match h np with
    | none => .error (.undefined "np->next")
    | some p => (walk h fuel p.next).map (fun l => ⟨p.lat, p.lon, p.t⟩ :: l)

/-- The `(lat, lon)` read by following `first -> next -> ...`. -/
def ledger (fuel : Nat) (g : Globals) : Except Fault (List (ℚ × ℚ)) :=
  (walk g.heap fuel g.first).map (fun l => l.map (fun e => (e.lat, e.lon)))

/-- A call of one of the two ledger functions, with what `calloc` and `time`
return in it. -/
inductive LedgerOp where
  | enqueue (mem : Nat) (now : Int) (lat lon : ℚ)
  | dequeue

/-- Runs the calls in order. -/
def run_ops : List LedgerOp → Globals → Except Fault Globals
  | [], g => .ok g
  | .enqueue mem now lat lon :: ops, g => enqueue_point (some mem) now lat lon g >>= run_ops ops
  | .dequeue :: ops, g => dequeue_point g >>= run_ops ops

/-- Whether every `calloc` of the run returns memory that is not in use at
the time of the call (nothing is asked of calls after a fault). -/
def fresh_allocs : List LedgerOp → Globals → Bool
  | [], _ => true
  | .enqueue mem now lat lon :: ops, g =>
    (g.heap mem).isNone &&
      match enqueue_point (some mem) now lat lon g with
      | .ok g1 => fresh_allocs ops g1
      | .error _ => true
  | .dequeue :: ops, g =>
    match dequeue_point g with
    | .ok g1 => fresh_allocs ops g1
    | .error _ => true

/-- The FIFO list of the specification: an enqueue appends at the back, a
dequeue drops the oldest element, and does nothing on the empty list. -/
def fifo_model : List LedgerOp → List (ℚ × ℚ) → List (ℚ × ℚ)
  | [], l => l
  | .enqueue _ _ lat lon :: ops, l => fifo_model ops (l ++ [(lat, lon)])
  | .dequeue :: ops, l => fifo_model ops l.tail

/-- The cells at the listed addresses hold the listed entries and are linked
in this order, the last one to `NULL`. -/
def Linked (h : Nat → Option point) : List (Nat × Entry) → Prop
  | [] => True
  | (a, e) :: rest =>
    h a = some ⟨e.lat, e.lon, e.t, rest.head?.map Prod.fst⟩ ∧ Linked h rest

/-- The state holds exactly the list `cells` as its ledger: `first` and `last`
point to its ends, the cells are linked, and no address occurs twice. -/
def Repr (g : Globals) (cells : List (Nat × Entry)) : Prop :=
  g.first = cells.head?.map Prod.fst ∧ g.last = cells.getLast?.map Prod.fst ∧
    Linked g.heap cells ∧ (cells.map Prod.fst).Nodup

/-! ## Sample data -/

/-- A state as `main` leaves it before the first `process_events`, for a
720x360 image whose pixels are all `0`, with foreground pixel `1`. -/
def g_init : Globals where
  width := 720
  height := 360
  win_width := 720
  win_height := 360
  image := ⟨720, 360, fun _ _ => 0⟩
  foreground := 1
  ctlfd := 0
  scale_x := 2
  scale_y := 2
  first := none
  last := none
  heap := fun _ => none
  xout := []
  diag := []

/-- A run of ledger calls in which a freed address is handed out again. -/
def sample_ops : List LedgerOp :=
  [.enqueue 0 100 1 2, .enqueue 1 101 3 4, .dequeue, .enqueue 0 102 5 6, .dequeue, .dequeue,
    .dequeue, .enqueue 1 103 7 8]

/-! ## Auxiliary definitions for the statements -/

/-- The corner `(x - sz/2, y - sz/2)` that `draw_point` and `undraw_point`
compute for a point, as a function of the projection scale alone. -/
def marker_origin (scale_x scale_y lat lon : ℚ) : Except Fault (Int × Int) := do
  let x ← double_to_int ((lon + 180) * scale_x)
  let y ← double_to_int ((90 - lat) * scale_y)
  let rx ← int_result (x - 2)
  let ry ← int_result (y - 2)
  pure (rx, ry)

/-- The point can be drawn: no step of `draw_point` is undefined for it.
Every point of the ledger was drawn by `plot` when it was enqueued. -/
def Projectable (g : Globals) (lat lon : ℚ) : Prop :=
  ∃ o, marker_origin g.scale_x g.scale_y lat lon = .ok o

/-- Calls `undraw_point` once for each entry, in order. -/
def undraw_all : List Entry → Globals → Except Fault Globals
  | [], g => .ok g
  | e :: es, g => undraw_point e.lat e.lon g >>= undraw_all es

/-- Whether an entry observed at `e.t` has reached the expiry age at time `t`. -/
def expired (t : Int) (c : Nat × Entry) : Bool :=
  decide (t - c.2.t ≥ EXPIRE_SECS)

/-- A ledger of three points, observed at times 100, 110 and 125. -/
def cells_three : List (Nat × Entry) :=
  [(0, ⟨0, 0, 100⟩), (1, ⟨90, -180, 110⟩), (2, ⟨-90, 180, 125⟩)]

/-- The state `g_init` holding the ledger `cells_three`. -/
def g_three : Globals :=
  { g_init with
    first := some 0
    last := some 2
    heap := fun a =>
      if a = 0 then some ⟨0, 0, 100, some 1⟩
      else if a = 1 then some ⟨90, -180, 110, some 2⟩
      else if a = 2 then some ⟨-90, 180, 125, none⟩
      else none }

/-! ## The pixels of the window -/

/-- The contents of the window, by column and row.  The window is taken as an
unbounded pixel plane: what lies outside the visible part is not shown. -/
abbrev Surface := Int → Int → Pixel

/-- Whether pixel `(i, j)` lies in the rectangle with corner `(x, y)` and the
given width and height. -/
def in_rect (x y : Int) (width height : Nat) (i j : Int) : Prop :=
  x ≤ i ∧ i < x + width ∧ y ≤ j ∧ j < y + height

instance (x y : Int) (width height : Nat) (i j : Int) : Decidable (in_rect x y width height i j) :=
  inferInstanceAs (Decidable (_ ∧ _ ∧ _ ∧ _))

/-- Effect of one request on the window, for the graphics context of `main`
(solid fill with the foreground pixel): `XFillRectangle` sets the pixels of the
rectangle to `fg`; `XPutImage` copies onto the destination rectangle the
pixels of the source rectangle that exist in the image, and leaves the others
as they are; `XFlush` changes no pixel. -/
def XRequest.apply (img : XImage) (fg : Pixel) (s : Surface) : XRequest → Surface
  | .FillRectangle x y w h => fun i j => if in_rect x y w h i j then fg else s i j
  | .PutImage sx sy dx dy w h => fun i j =>
    if in_rect dx dy w h i j ∧ in_rect 0 0 img.width.toNat img.height.toNat (sx + (i - dx)) (sy + (j - dy))
    then img.pixel (sx + (i - dx)) (sy + (j - dy)) else s i j
  | .Flush => s

/-- Effect of a sequence of requests, oldest first. -/
def render (img : XImage) (fg : Pixel) : Surface → List XRequest → Surface
  | s, [] => s
  | s, r :: rs => render img fg (r.apply img fg s) rs

/-! ## The input decoder as the specification words it -/

/-- The tokens of a line: its maximal runs of non-blank characters. -/
def spec_tokens (line : List Char) : List (List Char) :=
  (line.splitOnP isspace).filter (fun tok => !tok.isEmpty)

/-- A token that is, as a whole, a floating-point number, and its value. -/
def spec_number (tok : List Char) : Option ℚ :=
  match scan_lf tok with
  | .ok v [] => some v.toDouble
  | _ => none

/-- The decoder as the specification words it: the line consists of exactly
two whitespace-separated floating-point numbers; anything else is a format
error. -/
def spec_decode (line : List Char) : Option (ℚ × ℚ) :=
  match spec_tokens line with
  | [a, b] =>
    match spec_number a, spec_number b with
    | some lat, some lon => some (lat, lon)
    | _, _ => none
  | _ => none

/-- The corner of the marker square of an entry, as a mathematical integer
pair: where `marker_origin` lies whenever it is defined. -/
def marker_corner (scale_x scale_y : ℚ) (e : Entry) : Int × Int :=
  (trunc ((e.lon + 180) * scale_x) - 2, trunc ((90 - e.lat) * scale_y) - 2)

/-- The request by which `draw_point` draws an entry. -/
def fill_request (scale_x scale_y : ℚ) (e : Entry) : XRequest :=
  .FillRectangle (marker_corner scale_x scale_y e).1 (marker_corner scale_x scale_y e).2 5 5

/-- The request by which `undraw_point` erases an entry. -/
def undraw_request (scale_x scale_y : ℚ) (e : Entry) : XRequest :=
  .PutImage (marker_corner scale_x scale_y e).1 (marker_corner scale_x scale_y e).2
    (marker_corner scale_x scale_y e).1 (marker_corner scale_x scale_y e).2 5 5

/-- Whether pixel `(i, j)` lies in the marker square of an entry. -/
def in_marker (scale_x scale_y : ℚ) (e : Entry) (i j : Int) : Prop :=
  in_rect (marker_corner scale_x scale_y e).1 (marker_corner scale_x scale_y e).2 5 5 i j

/-- Whether pixel `(i, j)` is a pixel of the image. -/
def in_image (img : XImage) (i j : Int) : Prop :=
  in_rect 0 0 img.width.toNat img.height.toNat i j

/-- A ledger of two points at the same place, observed at times 100 and 125. -/
def cells_two : List (Nat × Entry) :=
  [(0, ⟨0, 0, 100⟩), (1, ⟨0, 0, 125⟩)]

/-- The state `g_init` holding the ledger `cells_two`. -/
def g_two : Globals :=
  { g_init with
    first := some 0
    last := some 1
    heap := fun a =>
      if a = 0 then some ⟨0, 0, 100, some 1⟩
      else if a = 1 then some ⟨0, 0, 125, none⟩
      else none }

/-- What every pass of the dispatch loop receives when no X event is pending
and a well-formed line waits on the control channel. -/
def inputs_line : Nat → Inputs :=
  fun _ => ⟨[], some "12.5 -60.25\n".toList, some 0, 100⟩

/-! # Properties -/

theorem Linked_allocated {h : Nat → Option point} :
    ∀ {cells : List (Nat × Entry)}, Linked h cells → ∀ a ∈ cells.map Prod.fst, h a ≠ none
  | [], _, a, ha => by simp at ha
  | (b, e) :: rest, hl, a, ha => by
    simp only [List.map_cons, List.mem_cons] at ha
    rcases ha with rfl | ha
    · rw [hl.1]; simp
    · exact Linked_allocated hl.2 a ha

theorem Linked_congr {h h' : Nat → Option point} :
    ∀ {cells : List (Nat × Entry)}, Linked h cells →
      (∀ a ∈ cells.map Prod.fst, h' a = h a) → Linked h' cells
  | [], _, _ => trivial
  | (b, e) :: rest, hl, hh => by
    refine ⟨?_, Linked_congr hl.2 (fun a ha => hh a (by simp [ha]))⟩
    rw [hh b (by simp)]; exact hl.1

theorem walk_Linked {h : Nat → Option point} :
    ∀ (cells : List (Nat × Entry)) (fuel : Nat), Linked h cells → cells.length ≤ fuel →
      walk h fuel (cells.head?.map Prod.fst) = .ok (cells.map Prod.snd)
  | [], fuel, _, _ => by cases fuel <;> rfl
  | (a, e) :: rest, 0, _, hf => by simp at hf
  | (a, e) :: rest, fuel + 1, hl, hf => by
    have ih := walk_Linked rest fuel hl.2 (by simpa using hf)
    simp only [List.head?_cons, Option.map_some', walk, hl.1, ih, List.map_cons]
    rfl

theorem Linked_snoc {h h' : Nat → Option point} (a : Nat) (e : Entry) (l : Nat) (el : Entry)
    (ha : h' a = some ⟨e.lat, e.lon, e.t, none⟩)
    (hl : h' l = some ⟨el.lat, el.lon, el.t, some a⟩)
    (hrest : ∀ b, b ≠ a → b ≠ l → h' b = h b) :
    ∀ (cells : List (Nat × Entry)), Linked h cells → cells.getLast? = some (l, el) →
      (cells.map Prod.fst).Nodup → a ∉ cells.map Prod.fst → Linked h' (cells ++ [(a, e)])
  | [], _, hlast, _, _ => by simp at hlast
  | [(b, eb)], _, hlast, _, _ => by
    simp only [List.getLast?_singleton, Option.some.injEq, Prod.mk.injEq] at hlast
    obtain ⟨rfl, rfl⟩ := hlast
    simp [Linked, ha, hl]
  | (b, eb) :: (c, ec) :: rest, hlk, hlast, hnd, hna => by
    have hlast' : ((c, ec) :: rest).getLast? = some (l, el) := by
      simpa [List.getLast?_cons_cons] using hlast
    have hnd' : (((c, ec) :: rest).map Prod.fst).Nodup := (List.nodup_cons.mp hnd).2
    have hna' : a ∉ ((c, ec) :: rest).map Prod.fst := fun hm => hna (List.mem_cons_of_mem _ hm)
    have ih := Linked_snoc a e l el ha hl hrest ((c, ec) :: rest) hlk.2 hlast' hnd' hna'
    have hba : b ≠ a := fun hb => hna (by simp [hb])
    have hbl : b ≠ l := by
      intro hb
      have hmem : (l, el) ∈ (c, ec) :: rest := List.mem_of_getLast?_eq_some hlast'
      have : l ∈ ((c, ec) :: rest).map Prod.fst := List.mem_map_of_mem Prod.fst hmem
      exact (List.nodup_cons.mp hnd).1 (hb ▸ this)
    refine ⟨?_, ih⟩
    rw [hrest b hba hbl, hlk.1]
    rfl

theorem Linked_last {h : Nat → Option point} (l : Nat) (el : Entry) :
    ∀ (init : List (Nat × Entry)), Linked h (init ++ [(l, el)]) →
      h l = some ⟨el.lat, el.lon, el.t, none⟩
  | [], hlk => hlk.1
  | _ :: init, hlk => Linked_last l el init hlk.2

/-- Effect of `enqueue_point` on a well-formed ledger when `calloc` returns
unused memory: the new entry is appended, nothing else changes. -/
theorem enqueue_point_Repr {g : Globals} {cells : List (Nat × Entry)} (a : Nat) (now : Int)
    (lat lon : ℚ) (hr : Repr g cells) (hfresh : g.heap a = none) :
    ∃ g1, enqueue_point (some a) now lat lon g = .ok g1 ∧
      Repr g1 (cells ++ [(a, ⟨lat, lon, now⟩)]) ∧
      g1 = { g with heap := g1.heap, first := g1.first, last := g1.last } ∧
      (∀ b, b ≠ a → g.heap b = none → g1.heap b = none) := by
  obtain ⟨hfirst, hlast, hlk, hnd⟩ := hr
  have hna : a ∉ cells.map Prod.fst := fun hm => Linked_allocated hlk a hm hfresh
  rcases List.eq_nil_or_concat' cells with rfl | ⟨init, ⟨l, el⟩, rfl⟩
  · simp only [List.getLast?_nil, Option.map_none'] at hlast
    refine ⟨_, by simp only [enqueue_point, hlast]; rfl, ⟨rfl, rfl, ?_, by simp⟩, rfl, ?_⟩
    · simp [Linked, store]
    · intro b hb hn; simp [store, hb, hn]
  · have hlast' : g.last = some l := by simpa using hlast
    have hmem : l ∈ (init ++ [(l, el)]).map Prod.fst := by simp
    have hla : l ≠ a := fun h => hna (h ▸ hmem)
    have hlk_l : g.heap l = some ⟨el.lat, el.lon, el.t, none⟩ := Linked_last l el init hlk
    refine ⟨_, by simp only [enqueue_point, hlast', store, if_neg hla, hlk_l]; rfl, ⟨?_, ?_, ?_, ?_⟩, rfl, ?_⟩
    · simp only [hfirst]; cases init <;> simp
    · simp
    · refine Linked_snoc a ⟨lat, lon, now⟩ l el ?_ ?_ ?_ _ hlk (by simp) hnd hna
      · simp [store, Ne.symm hla]
      · simp [store]
      · intro b hba hbl; simp [store, hba, hbl]
    · rw [List.map_append, List.nodup_append]
      refine ⟨hnd, by simp, ?_⟩
      intro b hb hb2
      simp only [List.map_cons, List.map_nil, List.mem_singleton] at hb2
      exact hna (hb2 ▸ hb)
    · intro b hb hn
      have hbl : b ≠ l := fun h => by rw [h, hlk_l] at hn; simp at hn
      simp [store, hb, hbl, hn]

/-- Effect of `dequeue_point` on a well-formed non-empty ledger: the oldest
entry is removed and its cell freed, nothing else changes. -/
theorem dequeue_point_Repr {g : Globals} {a : Nat} {e : Entry} {rest : List (Nat × Entry)}
    (hr : Repr g ((a, e) :: rest)) :
    ∃ g1, dequeue_point g = .ok g1 ∧ Repr g1 rest ∧
      g1 = { g with heap := store g.heap a none, first := g1.first, last := g1.last } := by
  obtain ⟨hfirst, hlast, hlk, hnd⟩ := hr
  have hfirst' : g.first = some a := by simpa using hfirst
  have hna : a ∉ rest.map Prod.fst := (List.nodup_cons.mp hnd).1
  have hlk' : Linked (store g.heap a none) rest :=
    Linked_congr hlk.2 (fun b hb => by
      have : b ≠ a := fun h => hna (h ▸ hb)
      simp [store, this])
  cases rest with
  | nil =>
    refine ⟨_, by simp only [dequeue_point, hfirst', hlk.1]; rfl, ⟨rfl, rfl, hlk', by simp⟩, rfl⟩
  | cons c rest =>
    obtain ⟨c, ec⟩ := c
    refine ⟨_, by simp only [dequeue_point, hfirst', hlk.1]; rfl, ⟨rfl, ?_, hlk', (List.nodup_cons.mp hnd).2⟩, rfl⟩
    simpa [List.getLast?_cons_cons] using hlast

theorem dequeue_point_empty (g : Globals) (h : g.first = none) : dequeue_point g = .ok g := by
  simp [dequeue_point, h]

theorem run_ops_Repr :
    ∀ (ops : List LedgerOp) (g : Globals) (cells : List (Nat × Entry)), Repr g cells →
      fresh_allocs ops g = true →
      ∃ g1 cells1, run_ops ops g = .ok g1 ∧ Repr g1 cells1 ∧
        cells1.map (fun c => (c.2.lat, c.2.lon))
          = fifo_model ops (cells.map (fun c => (c.2.lat, c.2.lon)))
  | [], g, cells, hr, _ => ⟨g, cells, rfl, hr, rfl⟩
  | .enqueue mem now lat lon :: ops, g, cells, hr, hf => by
    simp only [fresh_allocs, Bool.and_eq_true, Option.isNone_iff_eq_none] at hf
    obtain ⟨g1, hg1, hr1, -, -⟩ := enqueue_point_Repr mem now lat lon hr hf.1
    rw [hg1] at hf
    obtain ⟨g2, cells2, hg2, hr2, hl2⟩ := run_ops_Repr ops g1 _ hr1 hf.2
    refine ⟨g2, cells2, ?_, hr2, ?_⟩
    · simp only [run_ops, hg1]; exact hg2
    · simpa [fifo_model] using hl2
  | .dequeue :: ops, g, cells, hr, hf => by
    cases cells with
    | nil =>
      have he : dequeue_point g = .ok g := dequeue_point_empty g (by simpa using hr.1)
      simp only [fresh_allocs, he] at hf
      obtain ⟨g2, cells2, hg2, hr2, hl2⟩ := run_ops_Repr ops g _ hr hf
      exact ⟨g2, cells2, by simp only [run_ops, he]; exact hg2, hr2, by simpa [fifo_model] using hl2⟩
    | cons c rest =>
      obtain ⟨a, e⟩ := c
      obtain ⟨g1, hg1, hr1, -⟩ := dequeue_point_Repr hr
      simp only [fresh_allocs, hg1] at hf
      obtain ⟨g2, cells2, hg2, hr2, hl2⟩ := run_ops_Repr ops g1 _ hr1 hf
      exact ⟨g2, cells2, by simp only [run_ops, hg1]; exact hg2, hr2, by simpa [fifo_model] using hl2⟩

theorem ledger_Repr {g : Globals} {cells : List (Nat × Entry)} (hr : Repr g cells) (fuel : Nat)
    (hf : cells.length ≤ fuel) :
    ledger fuel g = .ok (cells.map (fun c => (c.2.lat, c.2.lon))) := by
  simp only [ledger, hr.1, walk_Linked cells fuel hr.2.2.1 hf]
  simp [Except.map]

/-- Claim C1.  Starting from the empty ledger (`first = last = NULL`), every
sequence of `enqueue_point` and `dequeue_point` calls in which `calloc` returns
unused memory runs to a state whose traversal `first -> next -> ...` reads,
with enough fuel, exactly the FIFO list of the specification; and
`dequeue_point` on an empty ledger returns the state unchanged. -/
theorem C1_ledger_is_fifo (g0 : Globals) (ops : List LedgerOp)
    (hfirst : g0.first = none) (hlast : g0.last = none) (hf : fresh_allocs ops g0 = true) :
    (∃ g, run_ops ops g0 = .ok g ∧
      ∀ fuel, (fifo_model ops []).length ≤ fuel → ledger fuel g = .ok (fifo_model ops [])) ∧
    ∀ g : Globals, g.first = none → dequeue_point g = .ok g := by
  refine ⟨?_, dequeue_point_empty⟩
  obtain ⟨g, cells, hg, hr, hl⟩ :=
    run_ops_Repr ops g0 [] ⟨by simpa using hfirst, by simpa using hlast, trivial, by simp⟩ hf
  refine ⟨g, hg, fun fuel hfuel => ?_⟩
  simp only [List.map_nil] at hl
  rw [← hl] at hfuel ⊢
  exact ledger_Repr hr fuel (by simpa using hfuel)

/-- Witness of claim C1: a run of eight calls that reuses freed addresses. -/
theorem C1_ledger_is_fifo_witness :
    fresh_allocs sample_ops g_init = true ∧
    ((∃ g, run_ops sample_ops g_init = .ok g ∧
      ∀ fuel, (fifo_model sample_ops []).length ≤ fuel →
        ledger fuel g = .ok (fifo_model sample_ops [])) ∧
    ∀ g : Globals, g.first = none → dequeue_point g = .ok g) :=
  ⟨by rfl, C1_ledger_is_fifo g_init sample_ops rfl rfl (by rfl)⟩

theorem draw_point_eq (lat lon : ℚ) (g : Globals) :
    draw_point lat lon g = (marker_origin g.scale_x g.scale_y lat lon).map
      (fun o => { g with xout := g.xout ++ [.FillRectangle o.1 o.2 5 5] }) := by
  simp only [draw_point, marker_origin, pixel_x, pixel_y, bind, Except.bind, pure, Except.pure,
    Except.map]
  cases double_to_int ((lon + 180) * g.scale_x) with
  | error e => rfl
  | ok x =>
    cases double_to_int ((90 - lat) * g.scale_y) with
    | error e => rfl
    | ok y =>
      have h2 : Int.tdiv 5 2 = 2 := by decide
      simp only [h2]
      cases int_result (x - 2) with
      | error e => rfl
      | ok rx =>
        cases int_result (y - 2) with
        | error e => rfl
        | ok ry => rfl

theorem undraw_point_eq (lat lon : ℚ) (g : Globals) :
    undraw_point lat lon g = (marker_origin g.scale_x g.scale_y lat lon).map
      (fun o => { g with xout := g.xout ++ [.PutImage o.1 o.2 o.1 o.2 5 5] }) := by
  simp only [undraw_point, marker_origin, pixel_x, pixel_y, bind, Except.bind, pure, Except.pure,
    Except.map]
  cases double_to_int ((lon + 180) * g.scale_x) with
  | error e => rfl
  | ok x =>
    cases double_to_int ((90 - lat) * g.scale_y) with
    | error e => rfl
    | ok y =>
      have h2 : Int.tdiv 5 2 = 2 := by decide
      simp only [h2]
      cases int_result (x - 2) with
      | error e => rfl
      | ok rx =>
        cases int_result (y - 2) with
        | error e => rfl
        | ok ry => rfl

theorem undraw_all_xout :
    ∀ (es : List Entry) (g g' : Globals), g'.scale_x = g.scale_x → g'.scale_y = g.scale_y →
      g'.xout = g.xout →
      (undraw_all es g').map (fun r => r.xout) = (undraw_all es g).map (fun r => r.xout)
  | [], g, g', _, _, hx => by simp [undraw_all, Except.map, hx]
  | e :: es, g, g', hsx, hsy, hx => by
    simp only [undraw_all, undraw_point_eq, hsx, hsy, hx]
    cases marker_origin g.scale_x g.scale_y e.lat e.lon with
    | error err => rfl
    | ok o => exact undraw_all_xout es _ _ rfl rfl rfl

theorem expire_loop_stop (t : Int) (fuel : Nat) (g : Globals)
    (h : expired_first t g = .ok false) : expire_loop t fuel g = .ok g := by
  cases fuel <;> simp [expire_loop, h, bind, Except.bind]

theorem filter_expired_of_head_fresh (t : Int) (a : Nat) (e : Entry) :
    ∀ (rest : List (Nat × Entry)),
      (((a, e) :: rest).map (fun c => c.2.t)).Pairwise (fun x y => x ≤ y) →
      expired t (a, e) = false →
      ((a, e) :: rest).filter (expired t) = [] ∧
        ((a, e) :: rest).filter (fun c => !expired t c) = (a, e) :: rest := by
  intro rest hs he
  have hall : ∀ c ∈ (a, e) :: rest, expired t c = false := by
    intro c hc
    rcases List.mem_cons.mp hc with rfl | hc
    · exact he
    · have hle : e.t ≤ c.2.t := by
        have := (List.pairwise_cons.mp hs).1 c.2.t (List.mem_map_of_mem (fun c => c.2.t) hc)
        simpa using this
      simp only [expired, decide_eq_false_iff_not, not_le, ge_iff_le] at he ⊢
      omega
  constructor
  · exact List.filter_eq_nil_iff.mpr (fun c hc => by simp [hall c hc])
  · exact List.filter_eq_self.mpr (fun c hc => by simp [hall c hc])

theorem expire_loop_Repr (t : Int) :
    ∀ (cells : List (Nat × Entry)) (g : Globals) (fuel : Nat), Repr g cells →
      (cells.map (fun c => c.2.t)).Pairwise (fun x y => x ≤ y) →
      (∀ c ∈ cells, Projectable g c.2.lat c.2.lon) →
      (cells.filter (expired t)).length ≤ fuel →
      ∃ g1 gu, expire_loop t fuel g = .ok g1 ∧
        Repr g1 (cells.filter (fun c => !expired t c)) ∧
        undraw_all ((cells.filter (expired t)).map Prod.snd) g = .ok gu ∧
        g1.xout = gu.xout ∧
        g1 = { g with heap := g1.heap, first := g1.first, last := g1.last, xout := g1.xout } ∧
        cells = cells.filter (expired t) ++ cells.filter (fun c => !expired t c)
  | [], g, fuel, hr, _, _, _ => by
    have hf : g.first = none := by simpa using hr.1
    exact ⟨g, g, expire_loop_stop t fuel g (by simp [expired_first, hf]), hr, rfl, rfl, rfl, rfl⟩
  | (a, e) :: rest, g, fuel, hr, hs, hp, hfuel => by
    have hf : g.first = some a := by simpa using hr.1
    have hcell := hr.2.2.1.1
    have hcond : expired_first t g = .ok (expired t (a, e)) := by
      simp [expired_first, hf, hcell, expired]
    cases hexp : expired t (a, e) with
    | false =>
      obtain ⟨h1, h2⟩ := filter_expired_of_head_fresh t a e rest hs hexp
      rw [hexp] at hcond
      refine ⟨g, g, expire_loop_stop t fuel g hcond, ?_, ?_, rfl, rfl, ?_⟩
      · rw [h2]; exact hr
      · rw [h1]; rfl
      · rw [h1, h2]; rfl
    | true =>
      rw [hexp] at hcond
      have hfilt : ((a, e) :: rest).filter (expired t) = (a, e) :: rest.filter (expired t) :=
        List.filter_cons_of_pos hexp
      have hfilt' : ((a, e) :: rest).filter (fun c => !expired t c)
          = rest.filter (fun c => !expired t c) :=
        List.filter_cons_of_neg (by simp [hexp])
      rw [hfilt] at hfuel
      obtain ⟨f, rfl⟩ : ∃ f, fuel = f + 1 := ⟨fuel - 1, by simp at hfuel; omega⟩
      obtain ⟨o, ho⟩ := hp (a, e) (List.mem_cons_self _ _)
      have hu : undraw_point e.lat e.lon g
          = .ok { g with xout := g.xout ++ [.PutImage o.1 o.2 o.1 o.2 5 5] } := by
        rw [undraw_point_eq]; simp only at ho; rw [ho]; rfl
      have hrU : Repr { g with xout := g.xout ++ [.PutImage o.1 o.2 o.1 o.2 5 5] }
          ((a, e) :: rest) := hr
      obtain ⟨g2, hg2, hr2, hfr2⟩ := dequeue_point_Repr hrU
      have hsx : g2.scale_x = g.scale_x := by rw [hfr2]
      have hsy : g2.scale_y = g.scale_y := by rw [hfr2]
      obtain ⟨g1, gu2, hl, hr1, hua, hx, hfr1, hsplit⟩ :=
        expire_loop_Repr t rest g2 f hr2 (List.pairwise_cons.mp hs).2
          (fun c hc => by
            obtain ⟨o', ho'⟩ := hp c (List.mem_cons_of_mem _ hc)
            exact ⟨o', by rw [hsx, hsy]; exact ho'⟩)
          (by simpa using hfuel)
      have hxo := undraw_all_xout ((rest.filter (expired t)).map Prod.snd)
        { g with xout := g.xout ++ [.PutImage o.1 o.2 o.1 o.2 5 5] } g2 hsx hsy (by rw [hfr2])
      rw [hua] at hxo
      cases hgu : undraw_all ((rest.filter (expired t)).map Prod.snd)
          { g with xout := g.xout ++ [.PutImage o.1 o.2 o.1 o.2 5 5] } with
      | error err => rw [hgu] at hxo; simp [Except.map] at hxo
      | ok gu =>
        rw [hgu] at hxo
        simp only [Except.map, Except.ok.injEq] at hxo
        refine ⟨g1, gu, ?_, ?_, ?_, ?_, ?_, ?_⟩
        · have hstep : expire_step g = .ok g2 := by
            simp only [expire_step, hf, hcell]
            rw [hu]; exact hg2
          simp only [expire_loop, hcond, bind, Except.bind, hstep, if_true]
          exact hl
        · rw [hfilt']; exact hr1
        · rw [hfilt]; simp only [List.map_cons, undraw_all, hu, bind, Except.bind]; exact hgu
        · rw [hx, hxo]
        · rw [hfr1, hfr2]
        · rw [hfilt, hfilt', List.cons_append, ← hsplit]

theorem undraw_all_requests :
    ∀ (es : List Entry) (g gu : Globals), undraw_all es g = .ok gu →
      ∃ reqs : List XRequest, gu.xout = g.xout ++ reqs ∧ reqs.length = es.length
  | [], g, gu, h => by
    simp only [undraw_all, Except.ok.injEq] at h
    exact ⟨[], by simp [h], rfl⟩
  | e :: es, g, gu, h => by
    simp only [undraw_all, undraw_point_eq] at h
    cases ho : marker_origin g.scale_x g.scale_y e.lat e.lon with
    | error err => rw [ho] at h; simp [Except.map, bind, Except.bind] at h
    | ok o =>
      rw [ho] at h
      obtain ⟨reqs, hx, hl⟩ := undraw_all_requests es _ gu h
      exact ⟨_ :: reqs, by simpa using hx, by simp [hl]⟩

/-- Claim C2.  On a well-formed ledger with non-decreasing timestamps whose
points can be projected, the expiry loop of `process_events` run at time `t`
(with fuel for the removals) ends in a state whose ledger is exactly the
entries with `t - observedAt < 30`, in order; the entries with
`t - observedAt >= 30` are a prefix of the old ledger; the X output grew by
exactly what one `undraw_point` per removed entry, in ledger order, writes
(one request each); nothing else changed.  In particular a single point
enqueued at `T` is removed with one undraw by a sweep at `T + 31`, and a sweep
at `T + 29` leaves the state as it is. -/
theorem C2_expiry_sweep (g : Globals) (cells : List (Nat × Entry)) (t : Int) (fuel : Nat)
    (hr : Repr g cells)
    (hs : (cells.map (fun c => c.2.t)).Pairwise (fun x y => x ≤ y))
    (hp : ∀ c ∈ cells, Projectable g c.2.lat c.2.lon)
    (hfuel : (cells.filter (expired t)).length ≤ fuel) :
    (∃ g1 gu, expire_loop t fuel g = .ok g1 ∧
      Repr g1 (cells.filter (fun c => !expired t c)) ∧
      cells = cells.filter (expired t) ++ cells.filter (fun c => !expired t c) ∧
      undraw_all ((cells.filter (expired t)).map Prod.snd) g = .ok gu ∧
      g1.xout = gu.xout ∧
      g1.xout.length = g.xout.length + (cells.filter (expired t)).length ∧
      g1 = { g with heap := g1.heap, first := g1.first, last := g1.last, xout := g1.xout }) ∧
    (∀ a e, cells = [(a, e)] →
      (t = e.t + 31 →
        ∃ g1 r, expire_loop t fuel g = .ok g1 ∧ Repr g1 [] ∧ g1.xout = g.xout ++ [r]) ∧
      (t = e.t + 29 → expire_loop t fuel g = .ok g)) := by
  obtain ⟨g1, gu, hl, hr1, hua, hx, hfr, hsplit⟩ := expire_loop_Repr t cells g fuel hr hs hp hfuel
  obtain ⟨reqs, hreqs, hlen⟩ := undraw_all_requests _ g gu hua
  refine ⟨⟨g1, gu, hl, hr1, hsplit, hua, hx, ?_, hfr⟩, ?_⟩
  · rw [hx, hreqs, List.length_append, hlen, List.length_map]
  · rintro a e rfl
    constructor
    · intro ht
      have hexp : expired t (a, e) = true := by
        simp only [expired, EXPIRE_SECS, decide_eq_true_eq]; omega
      have h1 : [(a, e)].filter (expired t) = [(a, e)] := by simp [hexp]
      have h2 : [(a, e)].filter (fun c => !expired t c) = [] := by simp [hexp]
      rw [h2] at hr1
      rw [h1] at hlen
      match reqs, hlen with
      | [r], _ => exact ⟨g1, r, hl, hr1, by rw [hx, hreqs]⟩
    · intro ht
      have hf : g.first = some a := by simpa using hr.1
      have hexp : expired t (a, e) = false := by
        simp only [expired, EXPIRE_SECS, decide_eq_false_iff_not]; omega
      exact expire_loop_stop t fuel g (by simp [expired_first, hf, hr.2.2.1.1]; simpa [expired] using hexp)

theorem int_result_ok (z : Int) (h : INT_MIN ≤ z ∧ z ≤ INT_MAX) : int_result z = .ok z := by
  simp [int_result, h]

/-- The conversion `(int) d` yields `z` when `z` is `d` with its fractional
part discarded and `z` fits `int`. -/
theorem double_to_int_eq (d : ℚ) (z : Int) (hz : INT_MIN ≤ z ∧ z ≤ INT_MAX)
    (h : (0 ≤ d ∧ (z : ℚ) ≤ d ∧ d < z + 1) ∨ (d < 0 ∧ (z : ℚ) - 1 < d ∧ d ≤ z)) :
    double_to_int d = .ok z := by
  unfold double_to_int trunc
  rcases h with ⟨h0, h1, h2⟩ | ⟨h0, h1, h2⟩
  · rw [if_pos h0, Int.floor_eq_iff.mpr ⟨h1, h2⟩]; exact int_result_ok z hz
  · rw [if_neg (not_le.mpr h0), Int.ceil_eq_iff.mpr ⟨h1, h2⟩]; exact int_result_ok z hz

theorem marker_origin_centre : marker_origin 2 2 0 0 = .ok (358, 178) := by
  simp only [marker_origin, double_to_int_eq ((0 + 180) * 2) 360 (by decide) (by norm_num),
    double_to_int_eq ((90 - 0) * 2) 180 (by decide) (by norm_num)]
  rfl

theorem marker_origin_top_left : marker_origin 2 2 90 (-180) = .ok (-2, -2) := by
  simp only [marker_origin, double_to_int_eq ((-180 + 180) * 2) 0 (by decide) (by norm_num),
    double_to_int_eq ((90 - 90) * 2) 0 (by decide) (by norm_num)]
  rfl

theorem marker_origin_bottom_right : marker_origin 2 2 (-90) 180 = .ok (718, 358) := by
  simp only [marker_origin, double_to_int_eq ((180 + 180) * 2) 720 (by decide) (by norm_num),
    double_to_int_eq ((90 - -90) * 2) 360 (by decide) (by norm_num)]
  rfl

theorem Repr_g_three : Repr g_three cells_three :=
  ⟨rfl, rfl, ⟨rfl, rfl, rfl, trivial⟩, by decide⟩

theorem Projectable_cells_three : ∀ c ∈ cells_three, Projectable g_three c.2.lat c.2.lon := by
  intro c hc
  simp only [cells_three, List.mem_cons, List.mem_singleton, List.not_mem_nil, or_false] at hc
  rcases hc with rfl | rfl | rfl
  · exact ⟨_, marker_origin_centre⟩
  · exact ⟨_, marker_origin_top_left⟩
  · exact ⟨_, marker_origin_bottom_right⟩

/-- Witness of claim C2: three points observed at 100, 110 and 125, swept at
time 140 (ages 40, 30 and 15): the first two are removed with one request
each, the third stays. -/
theorem C2_expiry_sweep_witness :
    Repr g_three cells_three ∧
    (cells_three.map (fun c => c.2.t)).Pairwise (fun x y => x ≤ y) ∧
    (∀ c ∈ cells_three, Projectable g_three c.2.lat c.2.lon) ∧
    (cells_three.filter (expired 140)).length ≤ 2 ∧
    ∃ g1, expire_loop 140 2 g_three = .ok g1 ∧ Repr g1 [(2, ⟨-90, 180, 125⟩)] ∧
      g1.xout.length = 2 := by
  have hs : (cells_three.map (fun c => c.2.t)).Pairwise (fun x y => x ≤ y) := by decide
  have hf : (cells_three.filter (expired 140)).length ≤ 2 := by decide
  refine ⟨Repr_g_three, hs, Projectable_cells_three, hf, ?_⟩
  obtain ⟨⟨g1, gu, hl, hr1, -, -, -, hlen, -⟩, -⟩ :=
    C2_expiry_sweep g_three cells_three 140 2 Repr_g_three hs Projectable_cells_three hf
  exact ⟨g1, hl, hr1, hlen⟩

theorem int_result_iff (z x : Int) :
    int_result z = .ok x ↔ INT_MIN ≤ x ∧ x ≤ INT_MAX ∧ x = z := by
  unfold int_result
  split_ifs with h
  · constructor
    · intro hx; simp only [Except.ok.injEq] at hx; subst hx; exact ⟨h.1, h.2, rfl⟩
    · rintro ⟨-, -, rfl⟩; rfl
  · constructor
    · intro hx; simp at hx
    · rintro ⟨h1, h2, rfl⟩; exact absurd ⟨h1, h2⟩ h

/-- The conversion `(int) d` yields `z` exactly when `z` fits `int`, lies
between zero and `d`, and is less than one away from `d`. -/
theorem double_to_int_iff (d : ℚ) (z : Int) :
    double_to_int d = .ok z ↔
      INT_MIN ≤ z ∧ z ≤ INT_MAX ∧ |(z : ℚ)| ≤ |d| ∧ |d - z| < 1 := by
  constructor
  · intro h
    unfold double_to_int at h
    rw [int_result_iff] at h
    obtain ⟨h1, h2, h3⟩ := h
    refine ⟨h1, h2, ?_⟩
    unfold trunc at h3
    split_ifs at h3 with h0
    · have hle : (z : ℚ) ≤ d := h3 ▸ Int.floor_le d
      have hlt : d < z + 1 := h3 ▸ Int.lt_floor_add_one d
      have hz0 : (0 : ℚ) ≤ z := by rw [h3]; exact_mod_cast Int.floor_nonneg.mpr h0
      rw [abs_of_nonneg hz0, abs_of_nonneg h0, abs_of_nonneg (by linarith)]
      constructor <;> linarith
    · have h0' : d < 0 := not_le.mp h0
      have hle : d ≤ (z : ℚ) := h3 ▸ Int.le_ceil d
      have hlt : (z : ℚ) - 1 < d := by
        have := Int.ceil_lt_add_one d
        rw [← h3] at this; linarith
      have hz0 : (z : ℚ) ≤ 0 := by
        rw [h3]; exact_mod_cast Int.ceil_le.mpr (by simpa using h0'.le)
      rw [abs_of_nonpos hz0, abs_of_neg h0', abs_of_nonpos (by linarith)]
      constructor <;> linarith
  · rintro ⟨h1, h2, h3, h4⟩
    refine double_to_int_eq d z ⟨h1, h2⟩ ?_
    rw [abs_lt] at h4
    rcases le_or_lt 0 d with h0 | h0
    · left
      rw [abs_of_nonneg h0] at h3
      have hz : (-1 : ℚ) < z := by linarith
      have hz0 : (0 : ℚ) ≤ z := by
        have : (-1 : Int) < z := by exact_mod_cast hz
        exact_mod_cast (show (0 : Int) ≤ z by omega)
      rw [abs_of_nonneg hz0] at h3
      exact ⟨h0, h3, by linarith⟩
    · right
      rw [abs_of_neg h0] at h3
      have hz : (z : ℚ) < 1 := by linarith
      have hz0 : (z : ℚ) ≤ 0 := by
        have : z < (1 : Int) := by exact_mod_cast hz
        exact_mod_cast (show z ≤ (0 : Int) by omega)
      rw [abs_of_nonpos hz0] at h3
      exact ⟨h0, by linarith, by linarith⟩

theorem marker_origin_iff (sx sy lat lon : ℚ) (o : Int × Int) :
    marker_origin sx sy lat lon = .ok o ↔
      ∃ x y, double_to_int ((lon + 180) * sx) = .ok x ∧ double_to_int ((90 - lat) * sy) = .ok y ∧
        INT_MIN ≤ x - 2 ∧ INT_MIN ≤ y - 2 ∧ o = (x - 2, y - 2) := by
  unfold marker_origin
  cases hx : double_to_int ((lon + 180) * sx) with
  | error e => simp [bind, Except.bind]
  | ok x =>
    cases hy : double_to_int ((90 - lat) * sy) with
    | error e => simp [bind, Except.bind]
    | ok y =>
      have hxr := ((double_to_int_iff _ _).mp hx).2.1
      have hyr := ((double_to_int_iff _ _).mp hy).2.1
      simp only [bind, Except.bind, pure, Except.pure, Except.ok.injEq, exists_and_left,
        exists_eq_left']
      cases hrx : int_result (x - 2) with
      | error e =>
        have : ¬ INT_MIN ≤ x - 2 := fun h =>
          by rw [int_result_ok _ ⟨h, by unfold INT_MAX at *; omega⟩] at hrx; cases hrx
        simp [this]
      | ok rx =>
        obtain ⟨h1, -, rfl⟩ := (int_result_iff _ _).mp hrx
        cases hry : int_result (y - 2) with
        | error e =>
          have : ¬ INT_MIN ≤ y - 2 := fun h =>
            by rw [int_result_ok _ ⟨h, by unfold INT_MAX at *; omega⟩] at hry; cases hry
          simp [this]
        | ok ry =>
          obtain ⟨h2, -, rfl⟩ := (int_result_iff _ _).mp hry
          simp only [Except.ok.injEq]
          constructor
          · rintro rfl; exact ⟨h1, h2, rfl⟩
          · rintro ⟨-, -, rfl⟩; rfl

/-- Claim C3, counterexample.  With scale 2, longitude -179.625 and latitude
89.625 both give the product 0.75: the code computes the pixel coordinate 0,
the nearest integer is 1. -/
theorem C3_round_counterexample :
    pixel_x g_init (-1437 / 8) = .ok 0 ∧
    round (((-1437 / 8 : ℚ) + 180) * g_init.scale_x) = 1 ∧
    pixel_y g_init (717 / 8) = .ok 0 ∧
    round (((90 : ℚ) - 717 / 8) * g_init.scale_y) = 1 ∧
    draw_point (717 / 8) (-1437 / 8) g_init
      = .ok { g_init with xout := [.FillRectangle (-2) (-2) 5 5] } := by
  have hx : pixel_x g_init (-1437 / 8) = .ok 0 :=
    double_to_int_eq _ 0 (by decide) (by simp only [g_init]; norm_num)
  have hy : pixel_y g_init (717 / 8) = .ok 0 :=
    double_to_int_eq _ 0 (by decide) (by simp only [g_init]; norm_num)
  refine ⟨hx, ?_, hy, ?_, ?_⟩
  · rw [round_eq, Int.floor_eq_iff]; simp only [g_init]; norm_num
  · rw [round_eq, Int.floor_eq_iff]; simp only [g_init]; norm_num
  · simp only [draw_point, hx, hy, bind, Except.bind]; rfl

/-- Claim C3, amended.  The pixel coordinates used by `draw_point` and
`undraw_point` are the products `(lon + 180) * scale_x` and
`(90 - lat) * scale_y` with the fractional part discarded: `x` is the result
exactly when it fits `int`, lies between zero and the product and is less than
one away from it.  Both functions succeed exactly when these conversions and
the subtractions `x - 2`, `y - 2` are defined, and then issue one request at
`(x - 2, y - 2)`. -/
theorem C3_pixel_is_truncation (g : Globals) (lat lon : ℚ) :
    (∀ x : Int, pixel_x g lon = .ok x ↔
      INT_MIN ≤ x ∧ x ≤ INT_MAX ∧ |(x : ℚ)| ≤ |(lon + 180) * g.scale_x| ∧
        |(lon + 180) * g.scale_x - x| < 1) ∧
    (∀ y : Int, pixel_y g lat = .ok y ↔
      INT_MIN ≤ y ∧ y ≤ INT_MAX ∧ |(y : ℚ)| ≤ |(90 - lat) * g.scale_y| ∧
        |(90 - lat) * g.scale_y - y| < 1) ∧
    (∀ g1, draw_point lat lon g = .ok g1 ↔
      ∃ x y, pixel_x g lon = .ok x ∧ pixel_y g lat = .ok y ∧ INT_MIN ≤ x - 2 ∧ INT_MIN ≤ y - 2 ∧
        g1 = { g with xout := g.xout ++ [.FillRectangle (x - 2) (y - 2) 5 5] }) ∧
    (∀ g1, undraw_point lat lon g = .ok g1 ↔
      ∃ x y, pixel_x g lon = .ok x ∧ pixel_y g lat = .ok y ∧ INT_MIN ≤ x - 2 ∧ INT_MIN ≤ y - 2 ∧
        g1 = { g with xout := g.xout ++ [.PutImage (x - 2) (y - 2) (x - 2) (y - 2) 5 5] }) := by
  refine ⟨fun x => double_to_int_iff _ x, fun y => double_to_int_iff _ y, fun g1 => ?_, fun g1 => ?_⟩
  · rw [draw_point_eq]
    constructor
    · intro h
      cases ho : marker_origin g.scale_x g.scale_y lat lon with
      | error e => rw [ho] at h; simp [Except.map] at h
      | ok o =>
        rw [ho] at h
        obtain ⟨x, y, hx, hy, hxr, hyr, rfl⟩ := (marker_origin_iff _ _ _ _ _).mp ho
        simp only [Except.map, Except.ok.injEq] at h
        exact ⟨x, y, hx, hy, hxr, hyr, h.symm⟩
    · rintro ⟨x, y, hx, hy, hxr, hyr, rfl⟩
      rw [(marker_origin_iff _ _ _ _ _).mpr ⟨x, y, hx, hy, hxr, hyr, rfl⟩]
      rfl
  · rw [undraw_point_eq]
    constructor
    · intro h
      cases ho : marker_origin g.scale_x g.scale_y lat lon with
      | error e => rw [ho] at h; simp [Except.map] at h
      | ok o =>
        rw [ho] at h
        obtain ⟨x, y, hx, hy, hxr, hyr, rfl⟩ := (marker_origin_iff _ _ _ _ _).mp ho
        simp only [Except.map, Except.ok.injEq] at h
        exact ⟨x, y, hx, hy, hxr, hyr, h.symm⟩
    · rintro ⟨x, y, hx, hy, hxr, hyr, rfl⟩
      rw [(marker_origin_iff _ _ _ _ _).mpr ⟨x, y, hx, hy, hxr, hyr, rfl⟩]
      rfl

/-- Claim C4.  When the projected pixel `(x, y)` of a point is defined and
`x - 2`, `y - 2` do not overflow, `draw_point` succeeds and issues exactly one
request, whose effect on the window is to set to the foreground pixel exactly
the pixels of columns `x-2..x+2` and rows `y-2..y+2`, leaving every other pixel
as it was.  For a 720x360 image `main` sets both scales to 2, and the centre
pixel is `(360, 180)` for input `(0, 0)`, `(0, 0)` for `(90, -180)` and
`(720, 360)` for `(-90, 180)`. -/
theorem C4_draw_point_square (g : Globals) (lat lon : ℚ) (x y : Int)
    (hx : pixel_x g lon = .ok x) (hy : pixel_y g lat = .ok y)
    (hxr : INT_MIN ≤ x - 2) (hyr : INT_MIN ≤ y - 2) :
    (∃ r, draw_point lat lon g = .ok { g with xout := g.xout ++ [r] } ∧
      ∀ (s : Surface) (i j : Int), r.apply g.image g.foreground s i j =
        if x - 2 ≤ i ∧ i ≤ x + 2 ∧ y - 2 ≤ j ∧ j ≤ y + 2 then g.foreground else s i j) ∧
    (g.width = 720 → g.height = 360 →
      (main_scale g).scale_x = 2 ∧ (main_scale g).scale_y = 2 ∧
      pixel_x (main_scale g) 0 = .ok 360 ∧ pixel_y (main_scale g) 0 = .ok 180 ∧
      pixel_x (main_scale g) (-180) = .ok 0 ∧ pixel_y (main_scale g) 90 = .ok 0 ∧
      pixel_x (main_scale g) 180 = .ok 720 ∧ pixel_y (main_scale g) (-90) = .ok 360) := by
  constructor
  · refine ⟨.FillRectangle (x - 2) (y - 2) 5 5, ?_, fun s i j => ?_⟩
    · rw [draw_point_eq, (marker_origin_iff _ _ _ _ _).mpr ⟨x, y, hx, hy, hxr, hyr, rfl⟩]
      rfl
    · have hiff : in_rect (x - 2) (y - 2) 5 5 i j ↔
          (x - 2 ≤ i ∧ i ≤ x + 2 ∧ y - 2 ≤ j ∧ j ≤ y + 2) := by
        unfold in_rect; push_cast; constructor <;> rintro ⟨h1, h2, h3, h4⟩ <;>
          exact ⟨h1, by omega, h3, by omega⟩
      simp only [XRequest.apply, hiff]
  · intro hw hh
    have hsx : (main_scale g).scale_x = 2 := by simp only [main_scale, hw]; norm_num
    have hsy : (main_scale g).scale_y = 2 := by simp only [main_scale, hh]; norm_num
    refine ⟨hsx, hsy, ?_, ?_, ?_, ?_, ?_, ?_⟩ <;>
      simp only [pixel_x, pixel_y, hsx, hsy]
    · exact double_to_int_eq _ 360 (by decide) (by norm_num)
    · exact double_to_int_eq _ 180 (by decide) (by norm_num)
    · exact double_to_int_eq _ 0 (by decide) (by norm_num)
    · exact double_to_int_eq _ 0 (by decide) (by norm_num)
    · exact double_to_int_eq _ 720 (by decide) (by norm_num)
    · exact double_to_int_eq _ 360 (by decide) (by norm_num)

/-- Witness of claim C4: the point `(0, 0)` in the sample state, whose marker
covers columns 358..362 and rows 178..182. -/
theorem C4_draw_point_square_witness :
    pixel_x g_init 0 = .ok 360 ∧ pixel_y g_init 0 = .ok 180 ∧
    INT_MIN ≤ (360 : Int) - 2 ∧ INT_MIN ≤ (180 : Int) - 2 ∧
    ∃ r, draw_point 0 0 g_init = .ok { g_init with xout := g_init.xout ++ [r] } ∧
      ∀ (s : Surface) (i j : Int), r.apply g_init.image g_init.foreground s i j =
        if 360 - 2 ≤ i ∧ i ≤ 360 + 2 ∧ 180 - 2 ≤ j ∧ j ≤ 180 + 2 then g_init.foreground
        else s i j :=
  have hx : pixel_x g_init 0 = .ok 360 :=
    double_to_int_eq _ 360 (by decide) (by simp only [g_init]; norm_num)
  have hy : pixel_y g_init 0 = .ok 180 :=
    double_to_int_eq _ 180 (by decide) (by simp only [g_init]; norm_num)
  ⟨hx, hy, by decide, by decide,
    (C4_draw_point_square g_init 0 0 360 180 hx hy (by decide) (by decide)).1⟩

/-- Claim C7.  Handling a `ConfigureNotify` event changes `win_width` and
`win_height` and nothing else; a batch consisting of one such event leaves
`scale_x`, `scale_y`, the image, its dimensions and the ledger as they were
and sends the X server only the final flush (no repaint); and for every point
the pixel coordinates and the result of `draw_point` after the resize are
those from before it. -/
theorem C7_resize_frame (fuel : Nat) (g : Globals) (w h : Int) :
    (∀ rest, process_xevents_loop fuel (.ConfigureNotify w h :: rest) g
      = process_xevents_loop fuel rest { g with win_width := w, win_height := h }) ∧
    process_xevents fuel [.ConfigureNotify w h] g
      = .ok { g with win_width := w, win_height := h, xout := g.xout ++ [.Flush] } ∧
    ∀ lat lon : ℚ,
      pixel_x { g with win_width := w, win_height := h, xout := g.xout ++ [.Flush] } lon
        = pixel_x g lon ∧
      pixel_y { g with win_width := w, win_height := h, xout := g.xout ++ [.Flush] } lat
        = pixel_y g lat ∧
      (draw_point lat lon
          { g with win_width := w, win_height := h, xout := g.xout ++ [.Flush] }).map
          (fun g1 => g1.xout)
        = (draw_point lat lon { g with xout := g.xout ++ [.Flush] }).map (fun g1 => g1.xout) := by
  refine ⟨fun rest => rfl, rfl, fun lat lon => ⟨rfl, rfl, ?_⟩⟩
  simp only [draw_point_eq]
  cases marker_origin g.scale_x g.scale_y lat lon <;> rfl

theorem isspace_not_digit {c : Char} (h : isspace c = true) : isdigit c = false := by
  simp only [isspace, isdigit, Bool.or_eq_true, Bool.and_eq_true, decide_eq_true_eq] at h ⊢
  simp only [Bool.and_eq_false_iff, decide_eq_false_iff_not]
  omega

theorem isspace_ne {c d : Char} (h : isspace c = true) (hd : isspace d = false) : c ≠ d := by
  rintro rfl; rw [h] at hd; cases hd

theorem scan_digits_append (c : Char) (tail : List Char) (hc : isdigit c = false) :
    ∀ (s : List Char) (acc n : Nat) (a m : Nat) (r : List Char),
      scan_digits acc n s = (a, m, r) → scan_digits acc n (s ++ c :: tail) = (a, m, r ++ c :: tail)
  | [], acc, n, a, m, r, h => by
    simp only [scan_digits, Prod.mk.injEq] at h
    obtain ⟨rfl, rfl, rfl⟩ := h
    simp [scan_digits, hc]
  | d :: s, acc, n, a, m, r, h => by
    simp only [List.cons_append, scan_digits] at h ⊢
    split_ifs with hd
    · rw [if_pos hd] at h; exact scan_digits_append c tail hc s _ _ a m r h
    · rw [if_neg hd] at h
      simp only [Prod.mk.injEq] at h
      obtain ⟨rfl, rfl, rfl⟩ := h
      rfl

theorem scan_sign_append (c : Char) (tail : List Char) (hc : isspace c = true) (s : List Char)
    (b : Bool) (r : List Char) (h : scan_sign s = (b, r)) :
    scan_sign (s ++ c :: tail) = (b, r ++ c :: tail) := by
  cases s with
  | nil =>
    have h1 : c ≠ '-' := isspace_ne hc (by decide)
    have h2 : c ≠ '+' := isspace_ne hc (by decide)
    simp only [scan_sign, Prod.mk.injEq] at h
    obtain ⟨rfl, rfl⟩ := h
    simp [scan_sign, h1, h2]
  | cons d s =>
    simp only [List.cons_append, scan_sign] at h ⊢
    split_ifs at h ⊢ <;> simp only [Prod.mk.injEq] at h <;> obtain ⟨rfl, rfl⟩ := h <;> rfl

theorem starts_with_ci_append (c : Char) (tail : List Char) :
    ∀ (p : List (Char × Char)) (s : List Char), (∀ q ∈ p, c ≠ q.1 ∧ c ≠ q.2) →
      starts_with_ci (s ++ c :: tail) p = starts_with_ci s p
  | [], s, _ => by cases s <;> rfl
  | q :: p, [], h => by
    have := h q (List.mem_cons_self _ _)
    simp [starts_with_ci, this.1, this.2]
  | q :: p, d :: s, h => by
    have ih := starts_with_ci_append c tail p s (fun q' hq' => h q' (List.mem_cons_of_mem _ hq'))
    show ((decide (d = q.1) || decide (d = q.2)) && starts_with_ci (s ++ c :: tail) p) = _
    rw [ih]; rfl

theorem skip_space_append (c : Char) (tail : List Char) :
    ∀ (s : List Char), skip_space s ≠ [] →
      skip_space (s ++ c :: tail) = skip_space s ++ c :: tail
  | [], h => by simp [skip_space] at h
  | d :: s, h => by
    simp only [List.cons_append, skip_space] at h ⊢
    split_ifs with hd
    · rw [if_pos hd] at h; exact skip_space_append c tail s h
    · rfl

theorem scan_mantissa_append (c : Char) (tail : List Char) (hc : isspace c = true)
    (s : List Char) (m n frac : Nat) (r : List Char) (h : scan_mantissa s = (m, n, frac, r)) :
    scan_mantissa (s ++ c :: tail) = (m, n, frac, r ++ c :: tail) := by
  have hd : isdigit c = false := isspace_not_digit hc
  have hdot : c ≠ '.' := isspace_ne hc (by decide)
  unfold scan_mantissa at h ⊢
  rcases h1 : scan_digits 0 0 s with ⟨m1, n1, r1⟩
  rw [h1] at h
  rw [scan_digits_append c tail hd s 0 0 m1 n1 r1 h1]
  cases r1 with
  | nil =>
    simp only [Prod.mk.injEq] at h
    obtain ⟨rfl, rfl, rfl, rfl⟩ := h
    simp [hdot]
  | cons d r1 =>
    simp only [List.cons_append] at h ⊢
    split_ifs at h ⊢ with hdd
    · rcases h2 : scan_digits m1 0 r1 with ⟨m2, n2, r2⟩
      rw [h2] at h
      rw [scan_digits_append c tail hd r1 m1 0 m2 n2 r2 h2]
      simp only [Prod.mk.injEq] at h ⊢
      obtain ⟨rfl, rfl, rfl, rfl⟩ := h
      exact ⟨rfl, rfl, rfl, rfl⟩
    · simp only [Prod.mk.injEq] at h ⊢
      obtain ⟨rfl, rfl, rfl, rfl⟩ := h
      exact ⟨rfl, rfl, rfl, rfl⟩

/-- A blank after the input does not change what the exponent part reads. -/
theorem scan_exponent_append (c : Char) (tail : List Char) (hc : isspace c = true)
    (neg : Bool) (m frac : Nat) (s : List Char) :
    scan_exponent neg m frac (s ++ c :: tail) =
      match scan_exponent neg m frac s with
      | .ok v r => .ok v (r ++ c :: tail)
      | .mismatch => .mismatch
      | .unmodelled => .unmodelled := by
  have hd : isdigit c = false := isspace_not_digit hc
  have he : c ≠ 'e' := isspace_ne hc (by decide)
  have hE : c ≠ 'E' := isspace_ne hc (by decide)
  cases s with
  | nil => simp [scan_exponent, he, hE]
  | cons d s =>
    simp only [List.cons_append, scan_exponent]
    by_cases hde : d = 'e' ∨ d = 'E'
    · rw [if_pos hde, if_pos hde]
      rcases h1 : scan_sign s with ⟨eneg, r1⟩
      rw [scan_sign_append c tail hc s eneg r1 h1]
      rcases h2 : scan_digits 0 0 r1 with ⟨ev, en, r2⟩
      rw [scan_digits_append c tail hd r1 0 0 ev en r2 h2]
      by_cases hen : en = 0 <;> simp [hen]
    · rw [if_neg hde, if_neg hde]; rfl

/-- A blank after the input does not change what one `%lf` conversion reads. -/
theorem scan_lf_append (c : Char) (tail : List Char) (hc : isspace c = true) (s : List Char) :
    scan_lf (s ++ c :: tail) =
      match scan_lf s with
      | .ok v r => .ok v (r ++ c :: tail)
      | .mismatch => .mismatch
      | .unmodelled => .unmodelled := by
  have hne : ∀ d : Char, isspace d = false → c ≠ d := fun d h => isspace_ne hc h
  have hp1 : ∀ q ∈ [('i', 'I'), ('n', 'N'), ('f', 'F')], c ≠ q.1 ∧ c ≠ q.2 := by
    intro q hq
    simp only [List.mem_cons, List.mem_singleton, List.not_mem_nil, or_false] at hq
    rcases hq with rfl | rfl | rfl <;> exact ⟨hne _ (by decide), hne _ (by decide)⟩
  have hp2 : ∀ q ∈ [('n', 'N'), ('a', 'A'), ('n', 'N')], c ≠ q.1 ∧ c ≠ q.2 := by
    intro q hq
    simp only [List.mem_cons, List.mem_singleton, List.not_mem_nil, or_false] at hq
    rcases hq with rfl | rfl | rfl <;> exact ⟨hne _ (by decide), hne _ (by decide)⟩
  have hp3 : ∀ q ∈ [('0', '0'), ('x', 'X')], c ≠ q.1 ∧ c ≠ q.2 := by
    intro q hq
    simp only [List.mem_cons, List.mem_singleton, List.not_mem_nil, or_false] at hq
    rcases hq with rfl | rfl <;> exact ⟨hne _ (by decide), hne _ (by decide)⟩
  unfold scan_lf
  rcases h1 : scan_sign s with ⟨neg, s1⟩
  rw [scan_sign_append c tail hc s neg s1 h1]
  simp only [starts_with_ci_append c tail _ _ hp1, starts_with_ci_append c tail _ _ hp2,
    starts_with_ci_append c tail _ _ hp3]
  by_cases hsp : (starts_with_ci s1 [('i', 'I'), ('n', 'N'), ('f', 'F')]
        || starts_with_ci s1 [('n', 'N'), ('a', 'A'), ('n', 'N')]
        || starts_with_ci s1 [('0', '0'), ('x', 'X')]) = true
  · simp only [hsp, if_true]
  · simp only [hsp, if_false]
    rcases h2 : scan_mantissa s1 with ⟨m, n, frac, s3⟩
    rw [scan_mantissa_append c tail hc s1 m n frac s3 h2]
    by_cases hn : n = 0
    · simp [hn]
    · simp only [hn, if_false]
      exact scan_exponent_append c tail hc neg m frac s3

/-- Text that follows a blank after two converted numbers is not looked at. -/
theorem sscanf_lf_lf_append (s : List Char) (lat lon : ℚ) (c : Char) (tail : List Char)
    (h : sscanf_lf_lf s = .ok (.two lat lon)) (hc : isspace c = true) :
    sscanf_lf_lf (s ++ c :: tail) = .ok (.two lat lon) := by
  unfold sscanf_lf_lf at h ⊢
  cases hs0 : skip_space s with
  | nil => rw [hs0] at h; cases h
  | cons d ds =>
    rw [hs0] at h
    rw [skip_space_append c tail s (by rw [hs0]; simp), hs0]
    simp only [List.cons_append] at h ⊢
    have hl := scan_lf_append c tail hc (d :: ds)
    simp only [List.cons_append] at hl
    rw [hl]
    cases h1 : scan_lf (d :: ds) with
    | unmodelled => rw [h1] at h; cases h
    | mismatch => rw [h1] at h; cases h
    | ok v1 r1 =>
      rw [h1] at h
      simp only at h ⊢
      cases hs1 : skip_space (skip_space r1) with
      | nil => rw [hs1] at h; cases h
      | cons d2 ds2 =>
        rw [hs1] at h
        have hne : skip_space r1 ≠ [] := by
          intro he; rw [he] at hs1; simp [skip_space] at hs1
        rw [skip_space_append c tail r1 hne,
          skip_space_append c tail (skip_space r1) (by rw [hs1]; simp), hs1]
        simp only [List.cons_append] at h ⊢
        have hl2 := scan_lf_append c tail hc (d2 :: ds2)
        simp only [List.cons_append] at hl2
        rw [hl2]
        cases h2 : scan_lf (d2 :: ds2) with
        | unmodelled => rw [h2] at h; cases h
        | mismatch => rw [h2] at h; cases h
        | ok v2 r2 => rw [h2] at h; exact h

theorem c_string_terminated (chunk : List Char) :
    c_string (chunk ++ [Char.ofNat 0]) = c_string chunk := by
  unfold c_string
  induction chunk with
  | nil => simp [List.takeWhile]
  | cons d chunk ih =>
    simp only [List.cons_append, List.takeWhile]
    split
    · exact congrArg (List.cons d) ih
    · rfl

/-- Effect of `plot` on a well-formed ledger, for a point that can be drawn
and memory that is unused. -/
theorem plot_Repr {g : Globals} {cells : List (Nat × Entry)} (a : Nat) (now : Int)
    (lat lon : ℚ) (o : Int × Int) (hr : Repr g cells) (hfresh : g.heap a = none)
    (ho : marker_origin g.scale_x g.scale_y lat lon = .ok o) :
    ∃ g1, plot (some a) now lat lon g = .ok g1 ∧
      Repr g1 (cells ++ [(a, ⟨lat, lon, now⟩)]) ∧
      g1 = { g with heap := g1.heap, first := g1.first, last := g1.last,
                    xout := g.xout ++ [.FillRectangle o.1 o.2 5 5, .Flush] } := by
  obtain ⟨g1, hg1, hr1, hfr, -⟩ := enqueue_point_Repr a now lat lon hr hfresh
  have hsx : g1.scale_x = g.scale_x := by rw [hfr]
  have hsy : g1.scale_y = g.scale_y := by rw [hfr]
  have hxo : g1.xout = g.xout := by rw [hfr]
  refine ⟨{ g1 with xout := g1.xout ++ [.FillRectangle o.1 o.2 5 5] ++ [.Flush] }, ?_, hr1, ?_⟩
  · simp only [plot, hg1, draw_point_eq, hsx, hsy, ho, bind, Except.bind, Except.map, pure,
      Except.pure]
  · simp only [hxo, List.append_assoc, List.singleton_append]
    rw [hfr]

theorem process_input_eq (chunk : List Char) (mem : Option Nat) (now : Int) (g : Globals)
    (h0 : 0 < chunk.length) (h1 : chunk.length < 256) :
    process_input (some chunk) mem now g =
      match sscanf_lf_lf (c_string chunk) with
      | .error e => .error e
      | .ok (.two lat lon) => plot mem now lat lon g
      | .ok _ => .ok { g with diag := g.diag ++ ["format error: use <lat> <lon>"] } := by
  have ht : chunk.take 256 = chunk := List.take_of_length_le (by omega)
  have hn0 : ¬ ((chunk.length : Int) ≤ 0) := by omega
  have hn1 : ((chunk.length : Int) < 256) := by omega
  simp only [process_input, read, ht, hn0, hn1, if_false, not_true_eq_false, c_string_terminated]

theorem sscanf_two_numbers :
    sscanf_lf_lf (c_string "12.5 -60.25\n".toList) = .ok (.two (25 / 2) (-241 / 4)) := by
  have h : sscanf_lf_lf (c_string "12.5 -60.25\n".toList)
      = .ok (.two (Decimal.toDouble ⟨false, 125, -1⟩) (Decimal.toDouble ⟨true, 6025, -2⟩)) := by rfl
  rw [h]; simp only [Decimal.toDouble]; norm_num

theorem sscanf_three_tokens :
    sscanf_lf_lf (c_string "1 2 3\n".toList) = .ok (.two 1 2) := by
  have h : sscanf_lf_lf (c_string "1 2 3\n".toList)
      = .ok (.two (Decimal.toDouble ⟨false, 1, 0⟩) (Decimal.toDouble ⟨false, 2, 0⟩)) := by rfl
  rw [h]; simp only [Decimal.toDouble]; norm_num

theorem sscanf_one_token :
    sscanf_lf_lf (c_string "1.0\n".toList) = .ok (.one 1) := by
  have h : sscanf_lf_lf (c_string "1.0\n".toList)
      = .ok (.one (Decimal.toDouble ⟨false, 10, -1⟩)) := by rfl
  rw [h]; simp only [Decimal.toDouble]; norm_num

theorem sscanf_no_number : sscanf_lf_lf (c_string "abc\n".toList) = .ok .zero := by rfl

/-- Claim C5, amended.  For a chunk of 1 to 255 bytes read in a state with a
well-formed ledger and unused memory from `calloc`: if `sscanf` converts two
numbers `lat` and `lon` and the point can be drawn, `process_input` appends
exactly `(lat, lon)` (stamped `now`) to the ledger and sends one
`XFillRectangle` and one flush; if `sscanf` returns anything but 2, the state
is unchanged but for one `format error` line; if the input is outside the
model, so is the result.  Text after a blank that follows the two numbers is
ignored.  `"12.5 -60.25"` converts to `(12.5, -60.25)`, `"1 2 3"` to `(1, 2)`,
`"1.0"` and `"abc"` give a format error. -/
theorem C5_process_input_decodes (g : Globals) (cells : List (Nat × Entry))
    (chunk : List Char) (a : Nat) (now : Int)
    (hr : Repr g cells) (hfresh : g.heap a = none)
    (h0 : 0 < chunk.length) (h1 : chunk.length < 256) :
    (∀ lat lon o, sscanf_lf_lf (c_string chunk) = .ok (.two lat lon) →
      marker_origin g.scale_x g.scale_y lat lon = .ok o →
      ∃ g1, process_input (some chunk) (some a) now g = .ok g1 ∧
        Repr g1 (cells ++ [(a, ⟨lat, lon, now⟩)]) ∧
        g1 = { g with heap := g1.heap, first := g1.first, last := g1.last,
                      xout := g.xout ++ [.FillRectangle o.1 o.2 5 5, .Flush] }) ∧
    (∀ r, sscanf_lf_lf (c_string chunk) = .ok r → r.ret ≠ 2 →
      process_input (some chunk) (some a) now g
        = .ok { g with diag := g.diag ++ ["format error: use <lat> <lon>"] }) ∧
    (∀ e, sscanf_lf_lf (c_string chunk) = .error e →
      process_input (some chunk) (some a) now g = .error e) ∧
    (∀ (s : List Char) (lat lon : ℚ) (c : Char) (tail : List Char),
      sscanf_lf_lf s = .ok (.two lat lon) → isspace c = true →
      sscanf_lf_lf (s ++ c :: tail) = .ok (.two lat lon)) ∧
    sscanf_lf_lf (c_string "12.5 -60.25\n".toList) = .ok (.two (25 / 2) (-241 / 4)) ∧
    sscanf_lf_lf (c_string "1 2 3\n".toList) = .ok (.two 1 2) ∧
    sscanf_lf_lf (c_string "1.0\n".toList) = .ok (.one 1) ∧
    sscanf_lf_lf (c_string "abc\n".toList) = .ok .zero := by
  refine ⟨?_, ?_, ?_, sscanf_lf_lf_append, sscanf_two_numbers, sscanf_three_tokens,
    sscanf_one_token, sscanf_no_number⟩
  · intro lat lon o hs ho
    rw [process_input_eq chunk _ now g h0 h1, hs]
    exact plot_Repr a now lat lon o hr hfresh ho
  · intro r hs hret
    rw [process_input_eq chunk _ now g h0 h1, hs]
    cases r with
    | two lat lon => exact absurd rfl hret
    | eof => rfl
    | zero => rfl
    | one lat => rfl
  · intro e hs
    rw [process_input_eq chunk _ now g h0 h1, hs]

theorem marker_origin_sample : marker_origin 2 2 (25 / 2) (-241 / 4) = .ok (237, 153) := by
  simp only [marker_origin, double_to_int_eq ((-241 / 4 + 180) * 2) 239 (by decide) (by norm_num),
    double_to_int_eq ((90 - 25 / 2) * 2) 155 (by decide) (by norm_num)]
  rfl

theorem marker_origin_one_two : marker_origin 2 2 1 2 = .ok (362, 176) := by
  simp only [marker_origin, double_to_int_eq ((2 + 180) * 2) 364 (by decide) (by norm_num),
    double_to_int_eq ((90 - 1) * 2) 178 (by decide) (by norm_num)]
  rfl

theorem Repr_g_init : Repr g_init [] := ⟨rfl, rfl, trivial, by simp⟩

/-- Witness of claim C5: the chunk `"12.5 -60.25\n"` read in the sample state. -/
theorem C5_process_input_decodes_witness :
    Repr g_init [] ∧ g_init.heap 0 = none ∧
    0 < "12.5 -60.25\n".toList.length ∧ "12.5 -60.25\n".toList.length < 256 ∧
    ∃ g1, process_input (some "12.5 -60.25\n".toList) (some 0) 100 g_init = .ok g1 ∧
      Repr g1 [(0, ⟨25 / 2, -241 / 4, 100⟩)] ∧
      g1.xout = [.FillRectangle 237 153 5 5, .Flush] ∧ g1.diag = [] := by
  refine ⟨Repr_g_init, rfl, by decide, by decide, ?_⟩
  obtain ⟨g1, hg1, hr1, hfr⟩ :=
    (C5_process_input_decodes g_init [] "12.5 -60.25\n".toList 0 100 Repr_g_init rfl
      (by decide) (by decide)).1 _ _ _ sscanf_two_numbers marker_origin_sample
  exact ⟨g1, hg1, hr1, by rw [hfr]; rfl, by rw [hfr]; rfl⟩

/-- Claim C5, counterexample.  The chunk `"1 2 3\n"` has three tokens, so the
decoder of the specification rejects it; `process_input` enqueues the point
`(1, 2)`, draws it and reports no error. -/
theorem C5_three_tokens_counterexample :
    spec_decode "1 2 3\n".toList = none ∧
    ∃ g1, process_input (some "1 2 3\n".toList) (some 0) 100 g_init = .ok g1 ∧
      ledger 1 g1 = .ok [(1, 2)] ∧
      g1.xout = [.FillRectangle 362 176 5 5, .Flush] ∧ g1.diag = [] := by
  refine ⟨by rfl, ?_⟩
  obtain ⟨g1, hg1, hr1, hfr⟩ := plot_Repr (g := g_init) 0 100 1 2 _ Repr_g_init rfl
    marker_origin_one_two
  refine ⟨g1, ?_, ?_, by rw [hfr]; rfl, by rw [hfr]; rfl⟩
  · rw [process_input_eq _ _ _ _ (by decide) (by decide), sscanf_three_tokens]
    exact hg1
  · exact ledger_Repr hr1 1 (by simp)

theorem marker_origin_eq_corner {sx sy : ℚ} {e : Entry} {o : Int × Int}
    (h : marker_origin sx sy e.lat e.lon = .ok o) : o = marker_corner sx sy e := by
  obtain ⟨x, y, hx, hy, -, -, rfl⟩ := (marker_origin_iff _ _ _ _ _).mp h
  unfold double_to_int at hx hy
  obtain ⟨-, -, rfl⟩ := (int_result_iff _ _).mp hx
  obtain ⟨-, -, rfl⟩ := (int_result_iff _ _).mp hy
  rfl

theorem draw_point_Projectable {g : Globals} {e : Entry} (h : Projectable g e.lat e.lon) :
    draw_point e.lat e.lon g
      = .ok { g with xout := g.xout ++ [fill_request g.scale_x g.scale_y e] } := by
  obtain ⟨o, ho⟩ := h
  rw [draw_point_eq, ho]
  have := marker_origin_eq_corner ho
  subst this
  rfl

theorem undraw_point_Projectable {g : Globals} {e : Entry} (h : Projectable g e.lat e.lon) :
    undraw_point e.lat e.lon g
      = .ok { g with xout := g.xout ++ [undraw_request g.scale_x g.scale_y e] } := by
  obtain ⟨o, ho⟩ := h
  rw [undraw_point_eq, ho]
  have := marker_origin_eq_corner ho
  subst this
  rfl

theorem draw_loop_Linked :
    ∀ (cells : List (Nat × Entry)) (fuel : Nat) (g : Globals), Linked g.heap cells →
      (∀ c ∈ cells, Projectable g c.2.lat c.2.lon) → cells.length ≤ fuel →
      draw_loop fuel (cells.head?.map Prod.fst) g
        = .ok { g with xout := g.xout ++ cells.map (fun c => fill_request g.scale_x g.scale_y c.2) }
  | [], fuel, g, _, _, _ => by cases fuel <;> simp [draw_loop]
  | (a, e) :: rest, 0, g, _, _, hf => by simp at hf
  | (a, e) :: rest, fuel + 1, g, hl, hp, hf => by
    have hd := draw_point_Projectable (hp (a, e) (List.mem_cons_self _ _))
    simp only at hd
    have ih := draw_loop_Linked rest fuel
      { g with xout := g.xout ++ [fill_request g.scale_x g.scale_y e] } hl.2
      (fun c hc => hp c (List.mem_cons_of_mem _ hc)) (by simpa using hf)
    simp only [List.head?_cons, Option.map_some', draw_loop, hl.1, hd, bind, Except.bind, ih,
      List.map_cons, List.append_assoc, List.singleton_append]

/-- Effect of `draw` on a well-formed ledger whose points can be drawn: one
`XPutImage` of the whole image, then one `XFillRectangle` per entry in ledger
order. -/
theorem draw_Repr {g : Globals} {cells : List (Nat × Entry)} (fuel : Nat) (hr : Repr g cells)
    (hp : ∀ c ∈ cells, Projectable g c.2.lat c.2.lon) (hf : cells.length ≤ fuel) :
    draw fuel g = .ok { g with xout := g.xout ++
      (XRequest.PutImage 0 0 0 0 (to_unsigned g.width) (to_unsigned g.height) ::
        cells.map (fun c => fill_request g.scale_x g.scale_y c.2)) } := by
  have h := draw_loop_Linked cells fuel
    { g with xout := g.xout ++ [.PutImage 0 0 0 0 (to_unsigned g.width) (to_unsigned g.height)] }
    hr.2.2.1 hp hf
  rw [← hr.1] at h
  exact h.trans (by simp)

theorem undraw_all_Projectable :
    ∀ (es : List Entry) (g : Globals), (∀ e ∈ es, Projectable g e.lat e.lon) →
      undraw_all es g
        = .ok { g with xout := g.xout ++ es.map (undraw_request g.scale_x g.scale_y) }
  | [], g, _ => by simp [undraw_all]
  | e :: es, g, hp => by
    have hu := undraw_point_Projectable (hp e (List.mem_cons_self _ _))
    have ih := undraw_all_Projectable es
      { g with xout := g.xout ++ [undraw_request g.scale_x g.scale_y e] }
      (fun e' he' => hp e' (List.mem_cons_of_mem _ he'))
    simp only [undraw_all, hu, bind, Except.bind, ih, List.map_cons, List.append_assoc,
      List.singleton_append]

theorem render_append (img : XImage) (fg : Pixel) :
    ∀ (a b : List XRequest) (s : Surface),
      render img fg s (a ++ b) = render img fg (render img fg s a) b
  | [], _, _ => rfl
  | r :: a, b, s => by simp only [List.cons_append, render]; exact render_append img fg a b _

/-- Pixels after the fills of `draw`: the foreground inside some marker square,
untouched elsewhere. -/
theorem render_fills (img : XImage) (fg : Pixel) (sx sy : ℚ) (i j : Int) :
    ∀ (es : List Entry) (s : Surface),
      ((∃ e ∈ es, in_marker sx sy e i j) →
        render img fg s (es.map (fill_request sx sy)) i j = fg) ∧
      ((¬ ∃ e ∈ es, in_marker sx sy e i j) →
        render img fg s (es.map (fill_request sx sy)) i j = s i j)
  | [], s => ⟨fun h => by simp at h, fun _ => rfl⟩
  | e :: es, s => by
    have ih := render_fills img fg sx sy i j es ((fill_request sx sy e).apply img fg s)
    simp only [List.map_cons, render]
    constructor
    · intro h
      by_cases hes : ∃ e' ∈ es, in_marker sx sy e' i j
      · exact ih.1 hes
      · rw [ih.2 hes]
        have he : in_marker sx sy e i j := by
          obtain ⟨e', he', hm⟩ := h
          rcases List.mem_cons.mp he' with rfl | he'
          · exact hm
          · exact absurd ⟨e', he', hm⟩ hes
        simp only [fill_request, XRequest.apply]
        exact if_pos he
    · intro h
      have hes : ¬ ∃ e' ∈ es, in_marker sx sy e' i j :=
        fun ⟨e', he', hm⟩ => h ⟨e', List.mem_cons_of_mem _ he', hm⟩
      have he : ¬ in_marker sx sy e i j := fun hm => h ⟨e, List.mem_cons_self _ _, hm⟩
      rw [ih.2 hes]
      simp only [fill_request, XRequest.apply]
      exact if_neg he

/-- Pixels after the restores of the sweep: the image pixel inside a marker
square of a removed entry where the image has one, untouched elsewhere. -/
theorem render_undraws (img : XImage) (fg : Pixel) (sx sy : ℚ) (i j : Int) :
    ∀ (es : List Entry) (s : Surface),
      ((∃ e ∈ es, in_marker sx sy e i j) → in_image img i j →
        render img fg s (es.map (undraw_request sx sy)) i j = img.pixel i j) ∧
      ((¬ ∃ e ∈ es, in_marker sx sy e i j) →
        render img fg s (es.map (undraw_request sx sy)) i j = s i j)
  | [], s => ⟨fun h => by simp at h, fun _ => rfl⟩
  | e :: es, s => by
    have ih := render_undraws img fg sx sy i j es ((undraw_request sx sy e).apply img fg s)
    have hi : ∀ c : Int, c + (i - c) = i := fun c => by omega
    have hj : ∀ c : Int, c + (j - c) = j := fun c => by omega
    simp only [List.map_cons, render]
    constructor
    · intro h himg
      by_cases hes : ∃ e' ∈ es, in_marker sx sy e' i j
      · exact ih.1 hes himg
      · rw [ih.2 hes]
        have he : in_marker sx sy e i j := by
          obtain ⟨e', he', hm⟩ := h
          rcases List.mem_cons.mp he' with rfl | he'
          · exact hm
          · exact absurd ⟨e', he', hm⟩ hes
        simp only [undraw_request, XRequest.apply, hi, hj]
        exact if_pos ⟨he, himg⟩
    · intro h
      have hes : ¬ ∃ e' ∈ es, in_marker sx sy e' i j :=
        fun ⟨e', he', hm⟩ => h ⟨e', List.mem_cons_of_mem _ he', hm⟩
      have he : ¬ in_marker sx sy e i j := fun hm => h ⟨e, List.mem_cons_self _ _, hm⟩
      rw [ih.2 hes]
      simp only [undraw_request, XRequest.apply, hi, hj]
      exact if_neg (fun hc => he hc.1)

theorem to_unsigned_of_int (w : Int) (h0 : 0 ≤ w) (h1 : w ≤ INT_MAX) :
    to_unsigned w = w.toNat := by
  unfold to_unsigned
  unfold INT_MAX at h1
  rw [Int.emod_eq_of_lt h0 (by omega)]

/-- The sweep on a well-formed ledger, with its X output spelled out. -/
theorem expire_loop_requests (t : Int) (g : Globals) (cells : List (Nat × Entry)) (fuel : Nat)
    (hr : Repr g cells)
    (hs : (cells.map (fun c => c.2.t)).Pairwise (fun x y => x ≤ y))
    (hp : ∀ c ∈ cells, Projectable g c.2.lat c.2.lon)
    (hf : (cells.filter (expired t)).length ≤ fuel) :
    ∃ g1, expire_loop t fuel g = .ok g1 ∧
      Repr g1 (cells.filter (fun c => !expired t c)) ∧
      g1 = { g with heap := g1.heap, first := g1.first, last := g1.last,
                    xout := g.xout ++ ((cells.filter (expired t)).map Prod.snd).map
                      (undraw_request g.scale_x g.scale_y) } := by
  obtain ⟨g1, gu, hl, hr1, hua, hx, hfr, -⟩ := expire_loop_Repr t cells g fuel hr hs hp hf
  have hu := undraw_all_Projectable ((cells.filter (expired t)).map Prod.snd) g (by
    intro e he
    obtain ⟨c, hc, rfl⟩ := List.mem_map.mp he
    exact hp c (List.mem_of_mem_filter hc))
  rw [hu] at hua
  simp only [Except.ok.injEq] at hua
  refine ⟨g1, hl, hr1, ?_⟩
  rw [hfr, hx, ← hua]

/-- Claim C10, amended.  Let the window show the result of `draw` for the
current ledger (well-formed, timestamps non-decreasing, points drawable, image
of the recorded size).  If the marker square of every point that the sweep at
time `t` removes lies inside the image and shares no pixel with the square of
a point that stays, then the sweep leaves the window equal, pixel by pixel, to
the result of `draw` for the remaining ledger. -/
theorem C10_sweep_keeps_window_drawn (g : Globals) (cells : List (Nat × Entry)) (t : Int)
    (fuel : Nat) (hr : Repr g cells)
    (hs : (cells.map (fun c => c.2.t)).Pairwise (fun x y => x ≤ y))
    (hp : ∀ c ∈ cells, Projectable g c.2.lat c.2.lon)
    (hf : cells.length ≤ fuel)
    (hw : g.image.width = g.width ∧ g.width ≤ INT_MAX)
    (hh : g.image.height = g.height ∧ g.height ≤ INT_MAX)
    (hin : ∀ c ∈ cells, expired t c = true →
      ∀ i j, in_marker g.scale_x g.scale_y c.2 i j → in_image g.image i j)
    (hdis : ∀ c ∈ cells, expired t c = true → ∀ c' ∈ cells, expired t c' = false →
      ∀ i j, in_marker g.scale_x g.scale_y c.2 i j → ¬ in_marker g.scale_x g.scale_y c'.2 i j) :
    ∃ gd g1 g2, draw fuel { g with xout := [] } = .ok gd ∧
      expire_loop t fuel { g with xout := [] } = .ok g1 ∧
      Repr g1 (cells.filter (fun c => !expired t c)) ∧
      draw fuel { g1 with xout := [] } = .ok g2 ∧
      ∀ s0 : Surface,
        render g.image g.foreground (render g.image g.foreground s0 gd.xout) g1.xout
          = render g.image g.foreground s0 g2.xout := by
  have hfilt : (cells.filter (expired t)).length ≤ fuel :=
    le_trans (List.length_filter_le _ _) hf
  have hkept : (cells.filter (fun c => !expired t c)).length ≤ fuel :=
    le_trans (List.length_filter_le _ _) hf
  have hr0 : Repr { g with xout := [] } cells := hr
  obtain ⟨g1, hl, hr1, hfr1⟩ := expire_loop_requests t { g with xout := [] } cells fuel hr0 hs hp hfilt
  have hsx : g1.scale_x = g.scale_x := by rw [hfr1]
  have hsy : g1.scale_y = g.scale_y := by rw [hfr1]
  have hwd : g1.width = g.width := by rw [hfr1]
  have hht : g1.height = g.height := by rw [hfr1]
  have hr1' : Repr { g1 with xout := [] } (cells.filter (fun c => !expired t c)) := hr1
  have hp1 : ∀ c ∈ cells.filter (fun c => !expired t c),
      Projectable { g1 with xout := [] } c.2.lat c.2.lon := by
    intro c hc
    obtain ⟨o, ho⟩ := hp c (List.mem_of_mem_filter hc)
    exact ⟨o, by simp only [hsx, hsy]; exact ho⟩
  refine ⟨_, g1, _, draw_Repr fuel hr0 hp hf, hl, hr1, draw_Repr fuel hr1' hp1 hkept, ?_⟩
  intro s0
  have hx1 : g1.xout = ((cells.filter (expired t)).map Prod.snd).map
      (undraw_request g.scale_x g.scale_y) := by rw [hfr1]; simp
  have hmm : ∀ l : List (Nat × Entry),
      l.map (fun c => fill_request g.scale_x g.scale_y c.2)
        = (l.map Prod.snd).map (fill_request g.scale_x g.scale_y) := by
    intro l; rw [List.map_map]; rfl
  simp only [hx1, hsx, hsy, hwd, hht, List.nil_append, render, hmm]
  funext i j
  set B : Surface :=
    (XRequest.PutImage 0 0 0 0 (to_unsigned g.width) (to_unsigned g.height)).apply
      g.image g.foreground s0 with hB
  have hfl := render_fills g.image g.foreground g.scale_x g.scale_y i j (cells.map Prod.snd) B
  have hfk := render_fills g.image g.foreground g.scale_x g.scale_y i j
    ((cells.filter (fun c => !expired t c)).map Prod.snd) B
  have hun := render_undraws g.image g.foreground g.scale_x g.scale_y i j
    ((cells.filter (expired t)).map Prod.snd)
    (render g.image g.foreground B ((cells.map Prod.snd).map
      (fill_request g.scale_x g.scale_y)))
  by_cases hrem : ∃ e ∈ (cells.filter (expired t)).map Prod.snd,
      in_marker g.scale_x g.scale_y e i j
  · obtain ⟨e, he, hm⟩ := hrem
    obtain ⟨c, hc, rfl⟩ := List.mem_map.mp he
    have hcc := List.mem_filter.mp hc
    have himg : in_image g.image i j := hin c hcc.1 hcc.2 i j hm
    rw [hun.1 ⟨c.2, he, hm⟩ himg]
    have hnk : ¬ ∃ e ∈ (cells.filter (fun c => !expired t c)).map Prod.snd,
        in_marker g.scale_x g.scale_y e i j := by
      rintro ⟨e', he', hm'⟩
      obtain ⟨c', hc', rfl⟩ := List.mem_map.mp he'
      have hcc' := List.mem_filter.mp hc'
      exact hdis c hcc.1 hcc.2 c' hcc'.1 (by simpa using hcc'.2) i j hm hm'
    rw [hfk.2 hnk, hB]
    have hi : (0 : Int) + (i - 0) = i := by omega
    have hj : (0 : Int) + (j - 0) = j := by omega
    simp only [XRequest.apply, hi, hj]
    have himg' := himg
    unfold in_image in_rect at himg'
    have hw0 : 0 ≤ g.width := by
      rw [← hw.1]; by_contra hneg
      have : g.image.width.toNat = 0 := Int.toNat_eq_zero.mpr (by omega)
      rw [this] at himg'; simp at himg'; omega
    have hh0 : 0 ≤ g.height := by
      rw [← hh.1]; by_contra hneg
      have : g.image.height.toNat = 0 := Int.toNat_eq_zero.mpr (by omega)
      rw [this] at himg'; simp at himg'; omega
    have hrect : in_rect 0 0 (to_unsigned g.width) (to_unsigned g.height) i j := by
      rw [to_unsigned_of_int _ hw0 hw.2, to_unsigned_of_int _ hh0 hh.2, ← hw.1, ← hh.1]
      exact himg
    exact (if_pos ⟨hrect, himg⟩).symm
  · rw [hun.2 hrem]
    have hiff : (∃ e ∈ cells.map Prod.snd, in_marker g.scale_x g.scale_y e i j) ↔
        ∃ e ∈ (cells.filter (fun c => !expired t c)).map Prod.snd,
          in_marker g.scale_x g.scale_y e i j := by
      constructor
      · rintro ⟨e, he, hm⟩
        obtain ⟨c, hc, rfl⟩ := List.mem_map.mp he
        cases hexp : expired t c with
        | true =>
          exact absurd ⟨c.2, List.mem_map_of_mem _ (List.mem_filter.mpr ⟨hc, hexp⟩), hm⟩ hrem
        | false =>
          exact ⟨c.2, List.mem_map_of_mem _ (List.mem_filter.mpr ⟨hc, by simp [hexp]⟩), hm⟩
      · rintro ⟨e, he, hm⟩
        obtain ⟨c, hc, rfl⟩ := List.mem_map.mp he
        exact ⟨c.2, List.mem_map_of_mem _ (List.mem_of_mem_filter hc), hm⟩
    by_cases hany : ∃ e ∈ cells.map Prod.snd, in_marker g.scale_x g.scale_y e i j
    · rw [hfl.1 hany, hfk.1 (hiff.mp hany)]
    · rw [hfl.2 hany, hfk.2 (fun h => hany (hiff.mpr h))]

theorem marker_corner_centre (t : Int) : marker_corner 2 2 ⟨0, 0, t⟩ = (358, 178) :=
  (marker_origin_eq_corner (e := ⟨0, 0, t⟩) marker_origin_centre).symm

theorem marker_corner_top_left (t : Int) : marker_corner 2 2 ⟨90, -180, t⟩ = (-2, -2) :=
  (marker_origin_eq_corner (e := ⟨90, -180, t⟩) marker_origin_top_left).symm

theorem marker_corner_bottom_right (t : Int) : marker_corner 2 2 ⟨-90, 180, t⟩ = (718, 358) :=
  (marker_origin_eq_corner (e := ⟨-90, 180, t⟩) marker_origin_bottom_right).symm

theorem in_image_three (c : Nat × Entry) (hc : c ∈ cells_three) (he : expired 135 c = true)
    (i j : Int) (hm : in_marker g_three.scale_x g_three.scale_y c.2 i j) :
    in_image g_three.image i j := by
  simp only [cells_three, List.mem_cons, List.mem_singleton, List.not_mem_nil, or_false] at hc
  rcases hc with rfl | rfl | rfl
  · have hc := marker_corner_centre 100
    simp only [in_marker, g_three, g_init, hc, in_rect] at hm
    simp only [in_image, g_three, g_init, in_rect]
    simp only [Int.toNat_ofNat, Nat.cast_ofNat] at hm ⊢
    omega
  · exact absurd he (by decide)
  · exact absurd he (by decide)

theorem disjoint_three (c : Nat × Entry) (hc : c ∈ cells_three) (he : expired 135 c = true)
    (c' : Nat × Entry) (hc' : c' ∈ cells_three) (he' : expired 135 c' = false)
    (i j : Int) (hm : in_marker g_three.scale_x g_three.scale_y c.2 i j) :
    ¬ in_marker g_three.scale_x g_three.scale_y c'.2 i j := by
  simp only [cells_three, List.mem_cons, List.mem_singleton, List.not_mem_nil, or_false] at hc hc'
  have h1 := marker_corner_centre 100
  have h2 := marker_corner_top_left 110
  have h3 := marker_corner_bottom_right 125
  rcases hc with rfl | rfl | rfl
  · rcases hc' with rfl | rfl | rfl
    · exact absurd he' (by decide)
    · simp only [in_marker, g_three, g_init, h1, h2, in_rect] at hm ⊢
      simp only [Nat.cast_ofNat] at hm ⊢
      omega
    · simp only [in_marker, g_three, g_init, h1, h3, in_rect] at hm ⊢
      simp only [Nat.cast_ofNat] at hm ⊢
      omega
  · exact absurd he (by decide)
  · exact absurd he (by decide)

/-- Witness of claim C10: three points far apart, swept at time 135 (ages 35,
25 and 10): the first is removed, its square lies inside the 720x360 image
and meets neither of the others. -/
theorem C10_sweep_keeps_window_drawn_witness :
    Repr g_three cells_three ∧
    (∀ c ∈ cells_three, expired 135 c = true →
      ∀ i j, in_marker g_three.scale_x g_three.scale_y c.2 i j → in_image g_three.image i j) ∧
    (∀ c ∈ cells_three, expired 135 c = true → ∀ c' ∈ cells_three, expired 135 c' = false →
      ∀ i j, in_marker g_three.scale_x g_three.scale_y c.2 i j →
        ¬ in_marker g_three.scale_x g_three.scale_y c'.2 i j) ∧
    ∃ gd g1 g2, draw 3 { g_three with xout := [] } = .ok gd ∧
      expire_loop 135 3 { g_three with xout := [] } = .ok g1 ∧
      Repr g1 (cells_three.filter (fun c => !expired 135 c)) ∧
      draw 3 { g1 with xout := [] } = .ok g2 ∧
      ∀ s0 : Surface,
        render g_three.image g_three.foreground
            (render g_three.image g_three.foreground s0 gd.xout) g1.xout
          = render g_three.image g_three.foreground s0 g2.xout :=
  ⟨Repr_g_three, in_image_three, disjoint_three,
    C10_sweep_keeps_window_drawn g_three cells_three 135 3 Repr_g_three (by decide)
      Projectable_cells_three (by decide) ⟨rfl, by decide⟩ ⟨rfl, by decide⟩
      in_image_three disjoint_three⟩

theorem Repr_g_two : Repr g_two cells_two :=
  ⟨rfl, rfl, ⟨rfl, rfl, trivial⟩, by decide⟩

theorem Projectable_cells_two : ∀ c ∈ cells_two, Projectable g_two c.2.lat c.2.lon := by
  intro c hc
  simp only [cells_two, List.mem_cons, List.mem_singleton, List.not_mem_nil, or_false] at hc
  rcases hc with rfl | rfl <;> exact ⟨_, marker_origin_centre⟩

/-- Claim C10, counterexample.  Two points at `(0, 0)`, observed at 100 and
125, drawn on a window; the sweep at time 140 removes the first and keeps the
second.  Restoring the square of the first erases the marker of the second:
pixel `(360, 180)` then shows the image (pixel 0), while `draw` for the
remaining ledger shows the marker (pixel 1). -/
theorem C10_overlap_counterexample :
    ∃ gd g1 g2, draw 2 g_two = .ok gd ∧ expire_loop 140 2 g_two = .ok g1 ∧
      ledger 2 g1 = .ok [(0, 0)] ∧ draw 2 { g1 with xout := [] } = .ok g2 ∧
      render g_two.image g_two.foreground
        (render g_two.image g_two.foreground (fun _ _ => 0) gd.xout) g1.xout 360 180 = 0 ∧
      render g_two.image g_two.foreground (fun _ _ => 0) g2.xout 360 180 = 1 := by
  obtain ⟨g1, hl, hr1, hfr1⟩ := expire_loop_requests 140 g_two cells_two 2 Repr_g_two
    (by decide) Projectable_cells_two (by decide)
  have hkeep : cells_two.filter (fun c => !expired 140 c) = [(1, ⟨0, 0, 125⟩)] := by rfl
  have hgone : cells_two.filter (expired 140) = [(0, ⟨0, 0, 100⟩)] := by rfl
  rw [hkeep] at hr1
  rw [hgone] at hfr1
  have hsx : g1.scale_x = 2 := by rw [hfr1]; rfl
  have hsy : g1.scale_y = 2 := by rw [hfr1]; rfl
  have hwd : g1.width = 720 := by rw [hfr1]; rfl
  have hht : g1.height = 360 := by rw [hfr1]; rfl
  have hx1 : g1.xout = [undraw_request 2 2 ⟨0, 0, 100⟩] := by rw [hfr1]; rfl
  have hr1' : Repr { g1 with xout := [] } [(1, ⟨0, 0, 125⟩)] := hr1
  have hp1 : ∀ c ∈ [((1 : Nat), (⟨0, 0, 125⟩ : Entry))],
      Projectable { g1 with xout := [] } c.2.lat c.2.lon := by
    intro c hc
    simp only [List.mem_singleton] at hc
    subst hc
    exact ⟨_, by simp only [hsx, hsy]; exact marker_origin_centre⟩
  refine ⟨_, g1, _, draw_Repr 2 Repr_g_two Projectable_cells_two (by decide), hl,
    ledger_Repr hr1 2 (by simp), draw_Repr 2 hr1' hp1 (by simp), ?_, ?_⟩
  · simp only [hx1, undraw_request, marker_corner_centre]
    simp only [g_two, g_init, cells_two, List.map, fill_request, marker_corner_centre,
      List.nil_append, render, XRequest.apply, in_rect, to_unsigned]
    simp
  · simp only [hsx, hsy, hwd, hht, List.nil_append, List.map, fill_request, marker_corner_centre,
      render, XRequest.apply, in_rect, to_unsigned, g_two, g_init]
    simp

/-- Handling pending X events on a well-formed ledger whose points can be
drawn succeeds and changes only the window size and the X output. -/
theorem process_xevents_loop_Repr (fuel : Nat) (cells : List (Nat × Entry)) :
    ∀ (evs : List XEvent) (g : Globals), Repr g cells →
      (∀ c ∈ cells, Projectable g c.2.lat c.2.lon) → cells.length ≤ fuel →
      ∃ g1, process_xevents_loop fuel evs g = .ok g1 ∧
        g1 = { g with win_width := g1.win_width, win_height := g1.win_height, xout := g1.xout }
  | [], g, _, _, _ => ⟨g, rfl, rfl⟩
  | .other _ :: evs, g, hr, hp, hf => by
    obtain ⟨g1, h1, hfr⟩ := process_xevents_loop_Repr fuel cells evs g hr hp hf
    exact ⟨g1, by simp only [process_xevents_loop]; exact h1, hfr⟩
  | .ConfigureNotify w h :: evs, g, hr, hp, hf => by
    obtain ⟨g1, h1, hfr⟩ := process_xevents_loop_Repr fuel cells evs
      { g with win_width := w, win_height := h } hr hp hf
    exact ⟨g1, by simp only [process_xevents_loop]; exact h1, by rw [hfr]⟩
  | .Expose count :: evs, g, hr, hp, hf => by
    by_cases hc : count = 0
    · obtain ⟨g1, h1, hfr⟩ := process_xevents_loop_Repr fuel cells evs
        { g with xout := g.xout ++
          (XRequest.PutImage 0 0 0 0 (to_unsigned g.width) (to_unsigned g.height) ::
            cells.map (fun c => fill_request g.scale_x g.scale_y c.2)) } hr hp hf
      refine ⟨g1, ?_, by rw [hfr]⟩
      simp only [process_xevents_loop, hc, if_true, draw_Repr fuel hr hp hf, bind, Except.bind]
      exact h1
    · obtain ⟨g1, h1, hfr⟩ := process_xevents_loop_Repr fuel cells evs g hr hp hf
      exact ⟨g1, by simp only [process_xevents_loop, hc, if_false]; exact h1, hfr⟩

theorem process_xevents_Repr (fuel : Nat) (cells : List (Nat × Entry)) (evs : List XEvent)
    (g : Globals) (hr : Repr g cells) (hp : ∀ c ∈ cells, Projectable g c.2.lat c.2.lon)
    (hf : cells.length ≤ fuel) :
    ∃ g1, process_xevents fuel evs g = .ok g1 ∧
      g1 = { g with win_width := g1.win_width, win_height := g1.win_height, xout := g1.xout } := by
  obtain ⟨g1, h1, hfr⟩ := process_xevents_loop_Repr fuel cells evs g hr hp hf
  refine ⟨{ g1 with xout := g1.xout ++ [.Flush] }, ?_, by rw [hfr]⟩
  simp only [process_xevents, h1, bind, Except.bind, pure, Except.pure]

/-- Claim C6.  In a state with a well-formed ledger whose points can be drawn,
`process_events` handles the pending X events (which leaves the ledger as it
is) and then calls `select` on the two descriptors with a timeout that is
exactly one second (`tv_sec = 1`, `tv_usec = 0`) if the ledger is non-empty,
and with no timeout (block until ready) if and only if it is empty. -/
theorem C6_select_timeout (fuel : Nat) (xfd : Int) (pending : List XEvent) (g : Globals)
    (cells : List (Nat × Entry)) (hr : Repr g cells)
    (hp : ∀ c ∈ cells, Projectable g c.2.lat c.2.lon) (hf : cells.length ≤ fuel) :
    ∃ g1 call, process_events_wait fuel xfd pending g = .ok (g1, call) ∧
      process_xevents fuel pending g = .ok g1 ∧ Repr g1 cells ∧
      call.rfds = [xfd, g.ctlfd] ∧
      (cells ≠ [] → call.tvp = some ⟨1, 0⟩) ∧
      (call.tvp = none ↔ cells = []) ∧
      (call.tvp = none ↔ g1.first = none) := by
  obtain ⟨g1, h1, hfr⟩ := process_xevents_Repr fuel cells pending g hr hp hf
  have hr1 : Repr g1 cells := by rw [hfr]; exact hr
  have hfirst : g1.first = none ↔ cells = [] := by
    rw [hr1.1]; cases cells <;> simp
  refine ⟨g1, ⟨(if g1.ctlfd > xfd then g1.ctlfd else xfd) + 1, [xfd, g1.ctlfd],
    if g1.first ≠ none then some ⟨1, 0⟩ else none⟩, ?_, h1, hr1, ?_, ?_, ?_, ?_⟩
  · simp only [process_events_wait, h1, bind, Except.bind, pure, Except.pure]
  · rw [hfr]
  · intro hne
    have : g1.first ≠ none := fun h => hne (hfirst.mp h)
    simp [this]
  · rw [← hfirst]; by_cases he : g1.first = none <;> simp [he]
  · by_cases he : g1.first = none <;> simp [he]

/-- Witness of claim C6: a resize and an exposure pending while the ledger
holds three points, and the empty ledger. -/
theorem C6_select_timeout_witness :
    Repr g_three cells_three ∧ (∀ c ∈ cells_three, Projectable g_three c.2.lat c.2.lon) ∧
    cells_three.length ≤ 3 ∧
    (∃ g1 call, process_events_wait 3 7 [.ConfigureNotify 800 600, .Expose 0] g_three
        = .ok (g1, call) ∧ call.tvp = some ⟨1, 0⟩) ∧
    (∃ g1 call, process_events_wait 0 7 [] g_init = .ok (g1, call) ∧ call.tvp = none) := by
  refine ⟨Repr_g_three, Projectable_cells_three, by decide, ?_, ?_⟩
  · obtain ⟨g1, call, hc, -, -, -, hne, -, -⟩ :=
      C6_select_timeout 3 7 [.ConfigureNotify 800 600, .Expose 0] g_three cells_three
        Repr_g_three Projectable_cells_three (by decide)
    exact ⟨g1, call, hc, hne (by decide)⟩
  · obtain ⟨g1, call, hc, -, -, -, -, hn, -⟩ :=
      C6_select_timeout 0 7 [] g_init [] Repr_g_init (by simp) (by simp)
    exact ⟨g1, call, hc, hn.mpr rfl⟩

/-- Claim C8, the code at the failing input.  `select` reports both
descriptors ready (`nready = 2`, X connection 7 and control channel 0 both in
`rfds`): the loop calls `process_xevents` in both passes (two flushes) and
never calls `process_input`: the line is not read, the ledger stays empty.
When only the control channel is ready the same line is read and enqueued. -/
theorem C8_both_ready_skips_input :
    process_events_dispatch 0 7 ⟨2, [7, 0]⟩ inputs_line 100 g_init
      = .ok { g_init with xout := [.Flush, .Flush] } ∧
    (∀ (fuel : Nat) (xfd : Int) (w : Wakeup) (inp : Nat → Inputs) (g : Globals),
      xfd ∈ w.rfds →
      dispatch_loop fuel xfd w inp 2 0 g
        = process_xevents fuel (inp 0).pending g >>= process_xevents fuel (inp 1).pending) ∧
    ∃ g1, process_events_dispatch 0 7 ⟨1, [0]⟩ inputs_line 100 g_init = .ok g1 ∧
      ledger 1 g1 = .ok [(25 / 2, -241 / 4)] := by
  refine ⟨by rfl, ?_, ?_⟩
  · intro fuel xfd w inp g hx
    simp only [dispatch_loop, hx, if_true, bind, Except.bind]
    cases process_xevents fuel (inp 0).pending g with
    | error e => rfl
    | ok g1 =>
      simp only
      cases process_xevents fuel (inp (0 + 1)).pending g1 <;> rfl
  · obtain ⟨g1, hg1, hr1, hfr⟩ := plot_Repr (g := g_init) 0 100 (25 / 2) (-241 / 4) _
      Repr_g_init rfl marker_origin_sample
    have hin : process_input (some "12.5 -60.25\n".toList) (some 0) 100 g_init = .ok g1 := by
      rw [process_input_eq _ _ _ _ (by decide) (by decide), sscanf_two_numbers]
      exact hg1
    have hstop : expire_loop 100 0 g1 = .ok g1 := by
      apply expire_loop_stop
      have hf : g1.first = some 0 := by simpa using hr1.1
      have hc := hr1.2.2.1.1
      simp only [expired_first, hf, hc]
      rfl
    refine ⟨g1, ?_, ledger_Repr hr1 1 (by simp)⟩
    have hd : dispatch_loop 0 7 ⟨1, [0]⟩ inputs_line 1 0 g_init = .ok g1 := by
      have h7 : ¬ ((7 : Int) ∈ ([0] : List Int)) := by decide
      have h0 : g_init.ctlfd ∈ ([0] : List Int) := by decide
      simp only [dispatch_loop, h7, h0, if_false, if_true, inputs_line, hin, bind, Except.bind]
    have hnr : (⟨1, [0]⟩ : Wakeup).nready.toNat = 1 := by rfl
    have hne : ¬ (⟨1, [0]⟩ : Wakeup).nready = -1 := by decide
    simp only [process_events_dispatch, hne, if_false, hnr, hd, bind, Except.bind, hstop]

set_option maxRecDepth 20000 in
/-- Claim C9, the code at the failing input.  When `read` fills the buffer
(256 bytes or more are available), `n` is 256 and the store `buf[n] = 0` lies
outside `char buf[256]`; with 255 bytes it is the last element of the
buffer. -/
theorem C9_full_read_writes_past_buffer :
    (read (some (List.replicate 256 'x')) 256).1 = 256 ∧
    process_input (some (List.replicate 256 'x')) (some 0) 100 g_init
      = .error (.undefined "buf[n] = 0 outside char buf[256]") ∧
    (∀ (l : List Char) (mem : Option Nat) (now : Int) (g : Globals), 256 ≤ l.length →
      process_input (some l) mem now g
        = .error (.undefined "buf[n] = 0 outside char buf[256]")) ∧
    process_input (some (List.replicate 255 'x')) (some 0) 100 g_init
      = .ok { g_init with diag := ["format error: use <lat> <lon>"] } := by
  refine ⟨by rfl, by rfl, ?_, by rfl⟩
  intro l mem now g hl
  have hlen : (l.take 256).length = 256 := by simp [List.length_take]; omega
  simp only [process_input, read, hlen]
  rfl

end Xrtmap
